import Mathlib

set_option maxRecDepth 100000

/-!
Verification of the end-to-end encryption core of the web-security-data chat
client (frontend/src/services/crypto.service.ts together with the direct
message send path of the chat pages).

The TypeScript source is built on the browser Web Crypto API.  The repository
functions (the CryptoService methods and the sendMessage dataflow) are
translated directly into Lean.  The platform primitives they call (ECDH on
P-256, HKDF-SHA256, PBKDF2-SHA256, AES-256-GCM, TextEncoder and TextDecoder,
btoa and atob) are not repository code; they are modelled here as executable
Lean functions that are faithful to the behaviour the source relies on:

* P-256 ECDH is modelled in the discrete-logarithm representation: a point is
  identified by its discrete logarithm with respect to the fixed generator,
  an element of the scalar ring modulo the P-256 group order, and the shared
  secret of a private scalar and a point is the product of their logarithms.
  This preserves the commutativity and the determinism of the real operation.
* AES-256-GCM is modelled as an ideal authenticated cipher: the ciphertext is
  an authenticated recoverable encoding of the key, the nonce and the
  plaintext, decryption succeeds exactly when the same key and nonce are
  supplied to an unmodified ciphertext, and a byte-level redundancy (every
  byte of the encoding is emitted twice) plays the role of the GCM
  authentication tag, making any single-bit corruption detectable.
* The two key-derivation functions are modelled as injective, recoverable
  encodings of their inputs, reflecting that the real functions are
  deterministic and collision-free for all practical purposes.
* btoa and atob are modelled bit-exactly (standard base64 with padding;
  atob implements the forgiving-base64 decode of the WHATWG infra standard).
* TextEncoder / TextDecoder are modelled as real UTF-8 encoding and decoding
  (the decoder emits U+FFFD replacement characters on malformed input).

Randomness (crypto.getRandomValues, generateKey) is passed in as explicit
arguments.  Thrown JavaScript errors become Except values whose constructors
mirror the individual errors thrown by the source.
-/

namespace WebSec

/-! ## Little-endian byte encodings of natural numbers -/

/-- Value of a little-endian byte list. -/
def bytesToNat : List Nat → Nat
  | [] => 0
  | b :: t => b + 256 * bytesToNat t

/-- Fixed-width little-endian byte encoding of a natural number. -/
def natToBytesPadded : Nat → Nat → List Nat
  | 0, _ => []
  | w + 1, n => n % 256 :: natToBytesPadded w (n / 256)

/-- Fuelled helper for the variable-width byte encoding. -/
def natToBytesAux : Nat → Nat → List Nat
  | 0, _ => []
  | fuel + 1, n => if n = 0 then [] else n % 256 :: natToBytesAux fuel (n / 256)

/-- Variable-width little-endian byte encoding of a natural number. -/
def natToBytes (n : Nat) : List Nat := natToBytesAux n n

theorem length_natToBytesPadded (w n : Nat) : (natToBytesPadded w n).length = w := by
  induction w generalizing n with
  | zero => rfl
  | succ w ih => simp [natToBytesPadded, ih]

theorem natToBytesPadded_lt (w n : Nat) : ∀ b ∈ natToBytesPadded w n, b < 256 := by
  induction w generalizing n with
  | zero => intro b hb; simp [natToBytesPadded] at hb
  | succ w ih =>
    intro b hb
    simp only [natToBytesPadded, List.mem_cons] at hb
    rcases hb with h | h
    · omega
    · exact ih _ b h

theorem bytesToNat_natToBytesPadded (w n : Nat) (h : n < 256 ^ w) :
    bytesToNat (natToBytesPadded w n) = n := by
  induction w generalizing n with
  | zero => simp at h; simp [h, natToBytesPadded, bytesToNat]
  | succ w ih =>
    have hdiv : n / 256 < 256 ^ w := by
      rw [Nat.div_lt_iff_lt_mul (by omega)]
      calc n < 256 ^ (w + 1) := h
        _ = 256 ^ w * 256 := by rw [Nat.pow_succ]
    have := ih (n / 256) hdiv
    simp only [natToBytesPadded, bytesToNat, this]
    omega

theorem natToBytesAux_lt (fuel n : Nat) : ∀ b ∈ natToBytesAux fuel n, b < 256 := by
  induction fuel generalizing n with
  | zero => intro b hb; simp [natToBytesAux] at hb
  | succ fuel ih =>
    intro b hb
    simp only [natToBytesAux] at hb
    split at hb
    · simp at hb
    · simp only [List.mem_cons] at hb
      rcases hb with h | h
      · omega
      · exact ih _ b h

theorem bytesToNat_natToBytesAux (fuel n : Nat) (h : n ≤ fuel) :
    bytesToNat (natToBytesAux fuel n) = n := by
  induction fuel generalizing n with
  | zero => interval_cases n; rfl
  | succ fuel ih =>
    by_cases h0 : n = 0
    · simp [natToBytesAux, h0, bytesToNat]
    · have hlt : n / 256 < n := Nat.div_lt_self (by omega) (by omega)
      have := ih (n / 256) (by omega)
      simp only [natToBytesAux, h0, if_false, bytesToNat, this]
      omega

theorem bytesToNat_natToBytes (n : Nat) : bytesToNat (natToBytes n) = n :=
  bytesToNat_natToBytesAux n n (Nat.le_refl n)

theorem natToBytes_lt (n : Nat) : ∀ b ∈ natToBytes n, b < 256 :=
  natToBytesAux_lt n n

/-! ## Model of btoa / atob (standard base64, forgiving decode) -/

/-- Alphabet of standard base64. -/
def b64Alphabet : List Char :=
  ['A', 'B', 'C', 'D', 'E', 'F', 'G', 'H', 'I', 'J', 'K', 'L', 'M',
   'N', 'O', 'P', 'Q', 'R', 'S', 'T', 'U', 'V', 'W', 'X', 'Y', 'Z',
   'a', 'b', 'c', 'd', 'e', 'f', 'g', 'h', 'i', 'j', 'k', 'l', 'm',
   'n', 'o', 'p', 'q', 'r', 's', 't', 'u', 'v', 'w', 'x', 'y', 'z',
   '0', '1', '2', '3', '4', '5', '6', '7', '8', '9', '+', '/']

/-- Digit character of a 6-bit value. -/
def b64Char (v : Nat) : Char := b64Alphabet.getD v 'A'

/-- Index of a character in a character list. -/
def charIdx : List Char → Char → Option Nat
  | [], _ => none
  | a :: t, ch => if ch = a then some 0 else (charIdx t ch).map (· + 1)

/-- Base64 encoding without the trailing padding characters. -/
def encNoPad : List Nat → List Char
  | [] => []
  | [a] => [b64Char (a / 4), b64Char (a % 4 * 16)]
  | [a, b] => [b64Char (a / 4), b64Char (a % 4 * 16 + b / 16), b64Char (b % 16 * 4)]
  | a :: b :: c :: rest =>
      b64Char (a / 4) :: b64Char (a % 4 * 16 + b / 16) ::
      b64Char (b % 16 * 4 + c / 64) :: b64Char (c % 64) :: encNoPad rest

/-- Padded base64 encoding, the output of btoa. -/
def encB64 : List Nat → List Char
  | [] => []
  | [a] => [b64Char (a / 4), b64Char (a % 4 * 16), '=', '=']
  | [a, b] => [b64Char (a / 4), b64Char (a % 4 * 16 + b / 16), b64Char (b % 16 * 4), '=']
  | a :: b :: c :: rest =>
      b64Char (a / 4) :: b64Char (a % 4 * 16 + b / 16) ::
      b64Char (b % 16 * 4 + c / 64) :: b64Char (c % 64) :: encB64 rest

/-- Padded base64 encoding as a string. -/
def encB64Str (l : List Nat) : String := String.mk (encB64 l)

/-- Padding block appended by the base64 encoder. -/
def padOf : List Nat → List Char
  | [] => []
  | [_] => ['=', '=']
  | [_, _] => ['=']
  | _ :: _ :: _ :: rest => padOf rest

/-- Base64 decoding of a padding-free digit string. -/
def decB64Chars : List Char → Option (List Nat)
  | [] => some []
  | [c1, c2] => do
      let v1 ← charIdx b64Alphabet c1
      let v2 ← charIdx b64Alphabet c2
      some [v1 * 4 + v2 / 16]
  | [c1, c2, c3] => do
      let v1 ← charIdx b64Alphabet c1
      let v2 ← charIdx b64Alphabet c2
      let v3 ← charIdx b64Alphabet c3
      some [v1 * 4 + v2 / 16, v2 % 16 * 16 + v3 / 4]
  | c1 :: c2 :: c3 :: c4 :: rest => do
      let v1 ← charIdx b64Alphabet c1
      let v2 ← charIdx b64Alphabet c2
      let v3 ← charIdx b64Alphabet c3
      let v4 ← charIdx b64Alphabet c4
      let tl ← decB64Chars rest
      some ((v1 * 4 + v2 / 16) :: (v2 % 16 * 16 + v3 / 4) :: (v3 % 4 * 64 + v4) :: tl)
  | [_] => none

/-- ASCII whitespace stripped by the forgiving-base64 decode. -/
def isB64Ws (ch : Char) : Bool :=
  ch = ' ' || ch.toNat = 9 || ch.toNat = 10 || ch.toNat = 12 || ch.toNat = 13

/-- Removal of at most two leading padding characters of a reversed string. -/
def dropPadRev : List Char → List Char
  | [] => []
  | c :: t =>
    if c = '=' then
      match t with
      | [] => []
      | c2 :: t2 => if c2 = '=' then t2 else t
    else c :: t

/-- Removal of at most two trailing padding characters. -/
def stripPad (l : List Char) : List Char := (dropPadRev l.reverse).reverse

/-- Model of atob: the forgiving-base64 decode of the WHATWG infra standard.
Whitespace is stripped; if the length is then a multiple of four, up to two
trailing padding characters are removed; remaining input must consist of
alphabet characters and must not have length 1 modulo 4. -/
def atobModel (cs : List Char) : Option (List Nat) :=
  let l := cs.filter (fun ch => !isB64Ws ch)
  let l := if l.length % 4 = 0 then stripPad l else l
  decB64Chars l

theorem charIdx_b64Char : ∀ v, v < 64 → charIdx b64Alphabet (b64Char v) = some v := by decide

theorem b64Char_ne_pad : ∀ v, v < 64 → b64Char v ≠ '=' := by decide

theorem b64Char_ne_colon : ∀ v, v < 64 → b64Char v ≠ ':' := by decide

theorem b64Char_not_ws : ∀ v, v < 64 → isB64Ws (b64Char v) = false := by decide

theorem b64Char_ascii : ∀ v, v < 64 → (b64Char v).toNat < 128 := by decide

theorem encB64_eq_encNoPad_append (l : List Nat) : encB64 l = encNoPad l ++ padOf l := by
  induction l using encB64.induct with
  | case1 => rfl
  | case2 a => rfl
  | case3 a b => rfl
  | case4 a b c rest ih => simp [encB64, encNoPad, padOf, ih]

theorem mem_encNoPad (l : List Nat) (hb : ∀ b ∈ l, b < 256) :
    ∀ ch ∈ encNoPad l, ∃ v, v < 64 ∧ ch = b64Char v := by
  induction l using encNoPad.induct with
  | case1 => intro ch h; simp [encNoPad] at h
  | case2 a =>
    intro ch h
    have ha : a < 256 := hb a (by simp)
    simp only [encNoPad, List.mem_cons, List.not_mem_nil, or_false] at h
    rcases h with h | h
    · exact ⟨a / 4, by omega, h⟩
    · exact ⟨a % 4 * 16, by omega, h⟩
  | case3 a b =>
    intro ch h
    have ha : a < 256 := hb a (by simp)
    have hbb : b < 256 := hb b (by simp)
    simp only [encNoPad, List.mem_cons, List.not_mem_nil, or_false] at h
    rcases h with h | h | h
    · exact ⟨a / 4, by omega, h⟩
    · exact ⟨a % 4 * 16 + b / 16, by omega, h⟩
    · exact ⟨b % 16 * 4, by omega, h⟩
  | case4 a b c rest ih =>
    intro ch h
    have ha : a < 256 := hb a (by simp)
    have hbb : b < 256 := hb b (by simp)
    have hc : c < 256 := hb c (by simp)
    simp only [encNoPad, List.mem_cons] at h
    rcases h with h | h | h | h | h
    · exact ⟨a / 4, by omega, h⟩
    · exact ⟨a % 4 * 16 + b / 16, by omega, h⟩
    · exact ⟨b % 16 * 4 + c / 64, by omega, h⟩
    · exact ⟨c % 64, by omega, h⟩
    · exact ih (fun x hx => hb x (by simp [hx])) ch h

theorem mem_encB64 (l : List Nat) (hb : ∀ b ∈ l, b < 256) :
    ∀ ch ∈ encB64 l, (∃ v, v < 64 ∧ ch = b64Char v) ∨ ch = '=' := by
  intro ch h
  rw [encB64_eq_encNoPad_append] at h
  rcases List.mem_append.mp h with h | h
  · exact Or.inl (mem_encNoPad l hb ch h)
  · right
    have : ∀ x, ∀ ch ∈ padOf x, ch = '=' := by
      intro x
      induction x using padOf.induct with
      | case1 => simp [padOf]
      | case2 a => simp [padOf]
      | case3 a b => simp [padOf]
      | case4 a b c rest ih => simpa [padOf] using ih
    exact this l ch h

theorem decB64Chars_encNoPad (l : List Nat) (hb : ∀ b ∈ l, b < 256) :
    decB64Chars (encNoPad l) = some l := by
  induction l using encNoPad.induct with
  | case1 => rfl
  | case2 a =>
    have ha : a < 256 := hb a (by simp)
    simp only [encNoPad, decB64Chars, charIdx_b64Char _ (by omega : a / 4 < 64),
      charIdx_b64Char _ (by omega : a % 4 * 16 < 64), Option.bind_eq_bind, Option.some_bind]
    congr 1
    have : a / 4 * 4 + a % 4 * 16 / 16 = a := by omega
    rw [this]
  | case3 a b =>
    have ha : a < 256 := hb a (by simp)
    have hbb : b < 256 := hb b (by simp)
    simp only [encNoPad, decB64Chars, charIdx_b64Char _ (by omega : a / 4 < 64),
      charIdx_b64Char _ (by omega : a % 4 * 16 + b / 16 < 64),
      charIdx_b64Char _ (by omega : b % 16 * 4 < 64), Option.bind_eq_bind, Option.some_bind]
    congr 1
    have h1 : a / 4 * 4 + (a % 4 * 16 + b / 16) / 16 = a := by omega
    have h2 : (a % 4 * 16 + b / 16) % 16 * 16 + b % 16 * 4 / 4 = b := by omega
    rw [h1, h2]
  | case4 a b c rest ih =>
    have ha : a < 256 := hb a (by simp)
    have hbb : b < 256 := hb b (by simp)
    have hc : c < 256 := hb c (by simp)
    have ihr := ih (fun x hx => hb x (by simp [hx]))
    simp only [encNoPad, decB64Chars, charIdx_b64Char _ (by omega : a / 4 < 64),
      charIdx_b64Char _ (by omega : a % 4 * 16 + b / 16 < 64),
      charIdx_b64Char _ (by omega : b % 16 * 4 + c / 64 < 64),
      charIdx_b64Char _ (by omega : c % 64 < 64), ihr,
      Option.bind_eq_bind, Option.some_bind]
    congr 1
    have h1 : a / 4 * 4 + (a % 4 * 16 + b / 16) / 16 = a := by omega
    have h2 : (a % 4 * 16 + b / 16) % 16 * 16 + (b % 16 * 4 + c / 64) / 4 = b := by omega
    have h3 : (b % 16 * 4 + c / 64) % 4 * 64 + c % 64 = c := by omega
    rw [h1, h2, h3]

theorem dropPadRev_cons_ne (c : Char) (t : List Char) (hc : c ≠ '=') :
    dropPadRev (c :: t) = c :: t := by
  simp [dropPadRev, hc]

theorem dropPadRev_pad1 (x : List Char)
    (hx : x = [] ∨ ∃ c t, x = c :: t ∧ c ≠ '=') : dropPadRev ('=' :: x) = x := by
  rcases hx with h | ⟨c, t, h, hc⟩
  · subst h; simp [dropPadRev]
  · subst h; simp [dropPadRev, hc]

theorem dropPadRev_pad2 (x : List Char) : dropPadRev ('=' :: '=' :: x) = x := by
  simp [dropPadRev]

theorem padOf_cases (l : List Nat) :
    padOf l = [] ∨ padOf l = ['='] ∨ padOf l = ['=', '='] := by
  induction l using padOf.induct with
  | case1 => left; rfl
  | case2 a => right; right; rfl
  | case3 a b => right; left; rfl
  | case4 a b c rest ih => simpa [padOf] using ih

theorem reverse_shape (e : List Char) (he : ∀ ch ∈ e, ch ≠ '=') :
    e.reverse = [] ∨ ∃ c t, e.reverse = c :: t ∧ c ≠ '=' := by
  cases h : e.reverse with
  | nil => exact Or.inl rfl
  | cons c t =>
    refine Or.inr ⟨c, t, rfl, he c ?_⟩
    have : c ∈ e.reverse := by rw [h]; simp
    simpa using this

theorem stripPad_append_pad (e p : List Char)
    (hp : p = [] ∨ p = ['='] ∨ p = ['=', '=']) (he : ∀ ch ∈ e, ch ≠ '=') :
    stripPad (e ++ p) = e := by
  rcases hp with h | h | h <;> subst h
  · unfold stripPad
    rw [List.append_nil]
    rcases reverse_shape e he with h | ⟨c, t, h, hc⟩
    · rw [h]; simp [dropPadRev]
      have : e = [] := by simpa using congrArg List.reverse h
      simp [this]
    · rw [h, dropPadRev_cons_ne c t hc, ← h, List.reverse_reverse]
  · unfold stripPad
    rw [List.reverse_append]
    show (dropPadRev ('=' :: e.reverse)).reverse = e
    rw [dropPadRev_pad1 e.reverse (reverse_shape e he), List.reverse_reverse]
  · unfold stripPad
    rw [List.reverse_append]
    show (dropPadRev ('=' :: '=' :: e.reverse)).reverse = e
    rw [dropPadRev_pad2, List.reverse_reverse]

theorem encNoPad_ne_pad (l : List Nat) (hb : ∀ b ∈ l, b < 256) :
    ∀ ch ∈ encNoPad l, ch ≠ '=' := by
  intro ch h
  obtain ⟨v, hv, rfl⟩ := mem_encNoPad l hb ch h
  exact b64Char_ne_pad v hv

theorem length_encB64_mod4 (l : List Nat) : (encB64 l).length % 4 = 0 := by
  induction l using encB64.induct with
  | case1 => rfl
  | case2 a => simp [encB64]
  | case3 a b => simp [encB64]
  | case4 a b c rest ih => simp [encB64]; omega

theorem filter_ws_encB64 (l : List Nat) (hb : ∀ b ∈ l, b < 256) :
    (encB64 l).filter (fun ch => !isB64Ws ch) = encB64 l := by
  rw [List.filter_eq_self]
  intro ch h
  rcases mem_encB64 l hb ch h with ⟨v, hv, rfl⟩ | rfl
  · simp [b64Char_not_ws v hv]
  · decide

theorem atobModel_encB64 (l : List Nat) (hb : ∀ b ∈ l, b < 256) :
    atobModel (encB64 l) = some l := by
  unfold atobModel
  rw [filter_ws_encB64 l hb]
  simp only [length_encB64_mod4 l, if_pos rfl]
  rw [encB64_eq_encNoPad_append, stripPad_append_pad _ _ (padOf_cases l) (encNoPad_ne_pad l hb)]
  exact decB64Chars_encNoPad l hb

theorem encB64_ne_nil (l : List Nat) (h : l ≠ []) : encB64 l ≠ [] := by
  match l with
  | [] => exact absurd rfl h
  | [a] => simp [encB64]
  | [a, b] => simp [encB64]
  | a :: b :: c :: rest => simp [encB64]

theorem encB64_injOn (l1 l2 : List Nat) (h1 : ∀ b ∈ l1, b < 256) (h2 : ∀ b ∈ l2, b < 256)
    (h : encB64 l1 = encB64 l2) : l1 = l2 := by
  have := atobModel_encB64 l1 h1
  rw [h, atobModel_encB64 l2 h2] at this
  exact (Option.some.injEq _ _).mp this.symm

theorem encB64_no_colon (l : List Nat) (hb : ∀ b ∈ l, b < 256) :
    ∀ ch ∈ encB64 l, ch ≠ ':' := by
  intro ch h
  rcases mem_encB64 l hb ch h with ⟨v, hv, rfl⟩ | rfl
  · exact b64Char_ne_colon v hv
  · decide

/-! ## Model of TextEncoder / TextDecoder (UTF-8) -/

/-- UTF-8 bytes of a single character. -/
def utf8EncodeChar (c : Char) : List Nat :=
  if c.toNat < 0x80 then [c.toNat]
  else if c.toNat < 0x800 then [0xC0 + c.toNat / 64, 0x80 + c.toNat % 64]
  else if c.toNat < 0x10000 then
    [0xE0 + c.toNat / 4096, 0x80 + c.toNat / 64 % 64, 0x80 + c.toNat % 64]
  else
    [0xF0 + c.toNat / 262144, 0x80 + c.toNat / 4096 % 64, 0x80 + c.toNat / 64 % 64,
     0x80 + c.toNat % 64]

/-- Model of TextEncoder.encode: the UTF-8 bytes of a string. -/
def utf8Encode (s : String) : List Nat := s.data.flatMap utf8EncodeChar

/-- Continuation-byte test. -/
def isCont (b : Nat) : Bool := 0x80 ≤ b && b < 0xC0

/-- Replacement character emitted on malformed input. -/
def replChar : Char := Char.ofNat 0xFFFD

/-- Fuelled UTF-8 decoder.  On well-formed input it inverts utf8Encode; on
malformed input it emits replacement characters (the exact resynchronisation
of TextDecoder is approximated, which no theorem below depends on). -/
def utf8DecodeAux : Nat → List Nat → List Char
  | 0, _ => []
  | _ + 1, [] => []
  | fuel + 1, b :: rest =>
    if b < 0x80 then Char.ofNat b :: utf8DecodeAux fuel rest
    else if b < 0xE0 then
      match rest with
      | b1 :: rest1 =>
        if 0xC2 ≤ b && isCont b1 then
          Char.ofNat ((b - 0xC0) * 64 + (b1 - 0x80)) :: utf8DecodeAux fuel rest1
        else replChar :: utf8DecodeAux fuel rest
      | [] => [replChar]
    else if b < 0xF0 then
      match rest with
      | b1 :: b2 :: rest2 =>
        if isCont b1 && isCont b2 && (0xE1 ≤ b || 0xA0 ≤ b1) && (b ≠ 0xED || b1 < 0xA0) then
          Char.ofNat ((b - 0xE0) * 4096 + (b1 - 0x80) * 64 + (b2 - 0x80)) ::
            utf8DecodeAux fuel rest2
        else replChar :: utf8DecodeAux fuel rest
      | _ => [replChar]
    else if b < 0xF5 then
      match rest with
      | b1 :: b2 :: b3 :: rest3 =>
        if isCont b1 && isCont b2 && isCont b3 && (0xF1 ≤ b || 0x90 ≤ b1) &&
            (b ≠ 0xF4 || b1 < 0x90) then
          Char.ofNat ((b - 0xF0) * 262144 + (b1 - 0x80) * 4096 + (b2 - 0x80) * 64 + (b3 - 0x80)) ::
            utf8DecodeAux fuel rest3
        else replChar :: utf8DecodeAux fuel rest
      | _ => [replChar]
    else replChar :: utf8DecodeAux fuel rest

/-- Model of TextDecoder.decode on a byte list. -/
def utf8Decode (l : List Nat) : List Char := utf8DecodeAux l.length l

/-- Model of TextDecoder.decode returning a string. -/
def utf8DecodeStr (l : List Nat) : String := String.mk (utf8Decode l)

theorem char_toNat_valid (c : Char) :
    c.toNat < 0xD800 ∨ (0xDFFF < c.toNat ∧ c.toNat < 0x110000) := by
  have h := c.valid
  rcases h with h | h
  · left
    exact h
  · right
    exact h

theorem utf8EncodeChar_lt (c : Char) : ∀ b ∈ utf8EncodeChar c, b < 256 := by
  intro b hb
  have hv : c.toNat < 0x110000 := by
    rcases char_toNat_valid c with h | h
    · omega
    · omega
  unfold utf8EncodeChar at hb
  split at hb
  · simp at hb; omega
  · split at hb
    · simp at hb; omega
    · split at hb
      · simp at hb; omega
      · simp at hb; omega

theorem utf8Encode_lt (s : String) : ∀ b ∈ utf8Encode s, b < 256 := by
  intro b hb
  unfold utf8Encode at hb
  rcases List.mem_flatMap.mp hb with ⟨c, _, hc⟩
  exact utf8EncodeChar_lt c b hc

theorem utf8DecodeAux_nil (fuel : Nat) : utf8DecodeAux fuel [] = [] := by
  cases fuel <;> rfl

theorem charOfNat_toNat (c : Char) : Char.ofNat c.toNat = c := by
  rcases c with ⟨val, h⟩
  simp only [Char.toNat, Char.ofNat]
  rw [dif_pos]
  · apply Char.ext
    rfl
  · exact h

theorem utf8DecodeAux_ascii (f b : Nat) (rest : List Nat) (hb : b < 0x80) :
    utf8DecodeAux (f + 1) (b :: rest) = Char.ofNat b :: utf8DecodeAux f rest := by
  simp only [utf8DecodeAux]
  rw [if_pos hb]

theorem utf8DecodeAux_two (f b0 b1 : Nat) (rest : List Nat)
    (h1 : 0xC2 ≤ b0) (h2 : b0 < 0xE0) (h3 : isCont b1 = true) :
    utf8DecodeAux (f + 1) (b0 :: b1 :: rest)
      = Char.ofNat ((b0 - 0xC0) * 64 + (b1 - 0x80)) :: utf8DecodeAux f rest := by
  simp only [utf8DecodeAux]
  rw [if_neg (by omega), if_pos (by omega), if_pos (by simp [h3]; omega)]

theorem utf8DecodeAux_three (f b0 b1 b2 : Nat) (rest : List Nat)
    (h1 : 0xE0 ≤ b0) (h2 : b0 < 0xF0) (hc1 : isCont b1 = true) (hc2 : isCont b2 = true)
    (hov : 0xE1 ≤ b0 ∨ 0xA0 ≤ b1) (hsur : b0 ≠ 0xED ∨ b1 < 0xA0) :
    utf8DecodeAux (f + 1) (b0 :: b1 :: b2 :: rest)
      = Char.ofNat ((b0 - 0xE0) * 4096 + (b1 - 0x80) * 64 + (b2 - 0x80)) ::
          utf8DecodeAux f rest := by
  simp only [utf8DecodeAux]
  rw [if_neg (by omega), if_neg (by omega), if_pos (by omega)]
  rw [if_pos (by
    simp only [hc1, hc2, Bool.true_and, Bool.and_true, Bool.or_eq_true, Bool.and_eq_true,
      decide_eq_true_eq]
    exact ⟨hov, hsur⟩)]

theorem utf8DecodeAux_four (f b0 b1 b2 b3 : Nat) (rest : List Nat)
    (h1 : 0xF0 ≤ b0) (h2 : b0 < 0xF5)
    (hc1 : isCont b1 = true) (hc2 : isCont b2 = true) (hc3 : isCont b3 = true)
    (hov : 0xF1 ≤ b0 ∨ 0x90 ≤ b1) (hmax : b0 ≠ 0xF4 ∨ b1 < 0x90) :
    utf8DecodeAux (f + 1) (b0 :: b1 :: b2 :: b3 :: rest)
      = Char.ofNat ((b0 - 0xF0) * 262144 + (b1 - 0x80) * 4096 + (b2 - 0x80) * 64 + (b3 - 0x80)) ::
          utf8DecodeAux f rest := by
  simp only [utf8DecodeAux]
  rw [if_neg (by omega), if_neg (by omega), if_neg (by omega), if_pos (by omega)]
  rw [if_pos (by
    simp only [hc1, hc2, hc3, Bool.true_and, Bool.and_true, Bool.or_eq_true, Bool.and_eq_true,
      decide_eq_true_eq]
    exact ⟨hov, hmax⟩)]

theorem utf8DecodeAux_encList (cs : List Char) (fuel : Nat)
    (h : (cs.flatMap utf8EncodeChar).length ≤ fuel) :
    utf8DecodeAux fuel (cs.flatMap utf8EncodeChar) = cs := by
  induction cs generalizing fuel with
  | nil => simp [utf8DecodeAux_nil]
  | cons c cs ih =>
    obtain ⟨f, rfl⟩ : ∃ f, fuel = f + 1 := by
      rcases fuel with _ | f
      · exfalso
        rw [List.flatMap_cons, List.length_append] at h
        have h1 : 1 ≤ (utf8EncodeChar c).length := by
          unfold utf8EncodeChar
          split
          · simp
          · split
            · simp
            · split
              · simp
              · simp
        omega
      · exact ⟨f, rfl⟩
    have hfr : (cs.flatMap utf8EncodeChar).length ≤ f := by
      rw [List.flatMap_cons, List.length_append] at h
      have h1 : 1 ≤ (utf8EncodeChar c).length := by
        unfold utf8EncodeChar
        split
        · simp
        · split
          · simp
          · split
            · simp
            · simp
      omega
    rw [List.flatMap_cons]
    rcases char_toNat_valid c with hvc | hvc
    case _ =>
      by_cases h1 : c.toNat < 0x80
      · rw [show utf8EncodeChar c = [c.toNat] by unfold utf8EncodeChar; rw [if_pos h1],
          List.singleton_append, utf8DecodeAux_ascii f _ _ h1, charOfNat_toNat, ih f hfr]
      · by_cases h2 : c.toNat < 0x800
        · rw [show utf8EncodeChar c = [0xC0 + c.toNat / 64, 0x80 + c.toNat % 64] by
            unfold utf8EncodeChar; rw [if_neg h1, if_pos h2]]
          rw [List.cons_append, List.singleton_append]
          rw [utf8DecodeAux_two f _ _ _ (by omega) (by omega)
            (by simp only [isCont, Bool.and_eq_true, decide_eq_true_eq]; omega)]
          have hval : (0xC0 + c.toNat / 64 - 0xC0) * 64 + (0x80 + c.toNat % 64 - 0x80)
              = c.toNat := by omega
          rw [hval, charOfNat_toNat, ih f hfr]
        · rw [show utf8EncodeChar c
              = [0xE0 + c.toNat / 4096, 0x80 + c.toNat / 64 % 64, 0x80 + c.toNat % 64] by
            unfold utf8EncodeChar; rw [if_neg h1, if_neg h2, if_pos (by omega)]]
          rw [List.cons_append, List.cons_append, List.singleton_append]
          rw [utf8DecodeAux_three f _ _ _ _ (by omega) (by omega)
            (by simp only [isCont, Bool.and_eq_true, decide_eq_true_eq]; omega)
            (by simp only [isCont, Bool.and_eq_true, decide_eq_true_eq]; omega)
            (by omega) (by omega)]
          have hval : (0xE0 + c.toNat / 4096 - 0xE0) * 4096 +
              (0x80 + c.toNat / 64 % 64 - 0x80) * 64 + (0x80 + c.toNat % 64 - 0x80)
              = c.toNat := by omega
          rw [hval, charOfNat_toNat, ih f hfr]
    case _ =>
      by_cases h3 : c.toNat < 0x10000
      · rw [show utf8EncodeChar c
            = [0xE0 + c.toNat / 4096, 0x80 + c.toNat / 64 % 64, 0x80 + c.toNat % 64] by
          unfold utf8EncodeChar; rw [if_neg (by omega), if_neg (by omega), if_pos (by omega)]]
        rw [List.cons_append, List.cons_append, List.singleton_append]
        rw [utf8DecodeAux_three f _ _ _ _ (by omega) (by omega)
          (by simp only [isCont, Bool.and_eq_true, decide_eq_true_eq]; omega)
          (by simp only [isCont, Bool.and_eq_true, decide_eq_true_eq]; omega)
          (by omega) (by omega)]
        have hval : (0xE0 + c.toNat / 4096 - 0xE0) * 4096 +
            (0x80 + c.toNat / 64 % 64 - 0x80) * 64 + (0x80 + c.toNat % 64 - 0x80)
            = c.toNat := by omega
        rw [hval, charOfNat_toNat, ih f hfr]
      · rw [show utf8EncodeChar c
            = [0xF0 + c.toNat / 262144, 0x80 + c.toNat / 4096 % 64,
               0x80 + c.toNat / 64 % 64, 0x80 + c.toNat % 64] by
          unfold utf8EncodeChar
          rw [if_neg (by omega), if_neg (by omega), if_neg (by omega)]]
        rw [List.cons_append, List.cons_append, List.cons_append, List.singleton_append]
        rw [utf8DecodeAux_four f _ _ _ _ _ (by omega) (by omega)
          (by simp only [isCont, Bool.and_eq_true, decide_eq_true_eq]; omega)
          (by simp only [isCont, Bool.and_eq_true, decide_eq_true_eq]; omega)
          (by simp only [isCont, Bool.and_eq_true, decide_eq_true_eq]; omega)
          (by omega) (by omega)]
        have hval : (0xF0 + c.toNat / 262144 - 0xF0) * 262144 +
            (0x80 + c.toNat / 4096 % 64 - 0x80) * 4096 +
            (0x80 + c.toNat / 64 % 64 - 0x80) * 64 + (0x80 + c.toNat % 64 - 0x80)
            = c.toNat := by omega
        rw [hval, charOfNat_toNat, ih f hfr]

theorem utf8Decode_utf8Encode (s : String) : utf8Decode (utf8Encode s) = s.data :=
  utf8DecodeAux_encList s.data _ (Nat.le_refl _)

theorem utf8DecodeStr_utf8Encode (s : String) : utf8DecodeStr (utf8Encode s) = s := by
  unfold utf8DecodeStr
  rw [utf8Decode_utf8Encode]

theorem utf8Encode_injective (s1 s2 : String) (h : utf8Encode s1 = utf8Encode s2) : s1 = s2 := by
  have := utf8DecodeStr_utf8Encode s1
  rw [h, utf8DecodeStr_utf8Encode s2] at this
  exact this.symm

/-! ## Ideal authenticated cipher (model of AES-256-GCM)

The ciphertext of the model is a recoverable, authenticated encoding of the
triple (key, nonce, plaintext).  The encoding escapes the byte 255, joins the
three parts with the two-byte separator 255 0, and finally emits every byte
twice; the duplication plays the role of the GCM authentication tag: a
single-bit change of any ciphertext byte breaks a duplicated pair and makes
decryption fail, exactly as a tag verification failure does. -/

/-- Escape of a single byte (255 is doubled so that 255 0 can separate). -/
def esc1 (b : Nat) : List Nat := if b = 255 then [255, 255] else [b]

/-- Escaped form of a byte list. -/
def escList (l : List Nat) : List Nat := l.flatMap esc1

/-- Escaped, separator-joined encoding of a list of parts. -/
def encParts : List (List Nat) → List Nat
  | [] => []
  | [l] => escList l
  | l :: rest => escList l ++ 255 :: 0 :: encParts rest

/-- Prepending a byte to the first part of a parsed part list. -/
def consHead (b : Nat) : Option (List (List Nat)) → Option (List (List Nat))
  | some (p :: ps) => some ((b :: p) :: ps)
  | some [] => some [[b]]
  | none => none

/-- Parser inverting encParts. -/
def decParts : List Nat → Option (List (List Nat))
  | [] => some [[]]
  | b :: rest =>
    if b = 255 then
      match rest with
      | [] => none
      | c :: rest2 =>
        if c = 255 then consHead 255 (decParts rest2)
        else if c = 0 then (decParts rest2).map (fun ps => [] :: ps)
        else none
    else consHead b (decParts rest)

theorem consHead_map_cons (b : Nat) (t : List Nat) (o : Option (List (List Nat))) :
    consHead b (o.map (fun ps => t :: ps)) = o.map (fun ps => (b :: t) :: ps) := by
  cases o with
  | none => rfl
  | some ps => rfl

theorem decParts_cons_255_255 (x : List Nat) :
    decParts (255 :: 255 :: x) = consHead 255 (decParts x) := by
  rw [decParts]
  norm_num

theorem decParts_cons_255_0 (x : List Nat) :
    decParts (255 :: 0 :: x) = (decParts x).map (fun ps => [] :: ps) := by
  rw [decParts]
  norm_num

theorem decParts_cons_ne (b : Nat) (x : List Nat) (hb : b ≠ 255) :
    decParts (b :: x) = consHead b (decParts x) := by
  rw [decParts.eq_def]
  simp [hb]

theorem decParts_escList_sep (l : List Nat) (r : List Nat) :
    decParts (escList l ++ 255 :: 0 :: r) = (decParts r).map (fun ps => l :: ps) := by
  induction l with
  | nil =>
    show decParts (255 :: 0 :: r) = _
    exact decParts_cons_255_0 r
  | cons b t ih =>
    by_cases hb : b = 255
    · subst hb
      show decParts (255 :: 255 :: (escList t ++ 255 :: 0 :: r)) = _
      rw [decParts_cons_255_255, ih]
      exact consHead_map_cons 255 t (decParts r)
    · show decParts (esc1 b ++ escList t ++ 255 :: 0 :: r) = _
      rw [show esc1 b = [b] by simp [esc1, hb], List.append_assoc, List.singleton_append,
        decParts_cons_ne b _ hb, ih]
      exact consHead_map_cons b t (decParts r)

theorem decParts_escList (l : List Nat) : decParts (escList l) = some [l] := by
  induction l with
  | nil => rfl
  | cons b t ih =>
    by_cases hb : b = 255
    · subst hb
      show decParts (255 :: 255 :: escList t) = _
      rw [decParts_cons_255_255, ih]
      rfl
    · show decParts (esc1 b ++ escList t) = _
      rw [show esc1 b = [b] by simp [esc1, hb], List.singleton_append,
        decParts_cons_ne b _ hb, ih]
      rfl

theorem decParts_encParts_triple (k n p : List Nat) :
    decParts (encParts [k, n, p]) = some [k, n, p] := by
  show decParts (escList k ++ 255 :: 0 :: (escList n ++ 255 :: 0 :: escList p)) = _
  rw [decParts_escList_sep, decParts_escList_sep, decParts_escList]
  rfl

theorem esc1_lt (b : Nat) (hb : b < 256) : ∀ x ∈ esc1 b, x < 256 := by
  intro x hx
  unfold esc1 at hx
  split at hx <;> simp at hx <;> omega

theorem escList_lt (l : List Nat) (hl : ∀ b ∈ l, b < 256) : ∀ x ∈ escList l, x < 256 := by
  intro x hx
  rcases List.mem_flatMap.mp hx with ⟨b, hb, hx⟩
  exact esc1_lt b (hl b hb) x hx

theorem encParts_triple_lt (k n p : List Nat)
    (hk : ∀ b ∈ k, b < 256) (hn : ∀ b ∈ n, b < 256) (hp : ∀ b ∈ p, b < 256) :
    ∀ x ∈ encParts [k, n, p], x < 256 := by
  intro x hx
  have hx2 : x ∈ escList k ++ 255 :: 0 :: (escList n ++ 255 :: 0 :: escList p) := hx
  rcases List.mem_append.mp hx2 with h | h
  · exact escList_lt k hk x h
  · simp only [List.mem_cons] at h
    rcases h with rfl | rfl | h
    · omega
    · omega
    · rcases List.mem_append.mp h with h | h
      · exact escList_lt n hn x h
      · simp only [List.mem_cons] at h
        rcases h with rfl | rfl | h
        · omega
        · omega
        · exact escList_lt p hp x h

/-- Byte duplication, the authentication redundancy of the model. -/
def dup (l : List Nat) : List Nat := l.flatMap (fun b => [b, b])

/-- Inverse of dup; fails when the redundancy is violated. -/
def undup : List Nat → Option (List Nat)
  | [] => some []
  | [_] => none
  | a :: b :: rest => if a = b then (undup rest).map (a :: ·) else none

theorem undup_dup (l : List Nat) : undup (dup l) = some l := by
  induction l with
  | nil => rfl
  | cons a t ih =>
    show undup (a :: a :: dup t) = _
    simp only [undup, if_pos rfl, ih]
    rfl

theorem dup_lt (l : List Nat) (hl : ∀ b ∈ l, b < 256) : ∀ x ∈ dup l, x < 256 := by
  intro x hx
  rcases List.mem_flatMap.mp hx with ⟨y, hy, hx2⟩
  simp only [List.mem_cons, List.not_mem_nil, or_false] at hx2
  rcases hx2 with rfl | rfl <;> exact hl x hy

theorem length_dup (l : List Nat) : (dup l).length = 2 * l.length := by
  induction l with
  | nil => rfl
  | cons a t ih =>
    show (a :: a :: dup t).length = _
    simp [ih]
    omega

/-- Single-bit corruption of a byte list: the bit with index j of the byte
with index i is flipped. -/
def flipBit (l : List Nat) (i j : Nat) : List Nat := l.set i (l.getD i 0 ^^^ 2 ^ j)

theorem xor_pow_ne (a j : Nat) : a ^^^ 2 ^ j ≠ a := by
  intro h
  have h2 : a ^^^ (a ^^^ 2 ^ j) = a ^^^ a := congrArg (a ^^^ ·) h
  rw [← Nat.xor_assoc, Nat.xor_self, Nat.zero_xor] at h2
  have : 0 < 2 ^ j := Nat.two_pow_pos j
  omega

theorem getD_set_self (l : List Nat) (i v : Nat) (h : i < l.length) :
    (l.set i v).getD i 0 = v := by
  induction l generalizing i with
  | nil => simp at h
  | cons a t ih =>
    cases i with
    | zero => rfl
    | succ i =>
      simp only [List.set_cons_succ, List.getD_cons_succ]
      exact ih i (by simpa using h)

theorem flipBit_ne (l : List Nat) (i j : Nat) (h : i < l.length) : flipBit l i j ≠ l := by
  intro heq
  have h2 : (flipBit l i j).getD i 0 = l.getD i 0 ^^^ 2 ^ j :=
    getD_set_self l i (l.getD i 0 ^^^ 2 ^ j) h
  rw [heq] at h2
  exact xor_pow_ne (l.getD i 0) j h2.symm

theorem flipBit_lt (l : List Nat) (i j : Nat) (hj : j < 8) (hl : ∀ b ∈ l, b < 256) :
    ∀ x ∈ flipBit l i j, x < 256 := by
  intro x hx
  rcases List.mem_or_eq_of_mem_set hx with h | h
  · exact hl x h
  · subst h
    have hd : l.getD i 0 < 256 := by
      rcases Nat.lt_or_ge i l.length with hi | hi
      · have hmem : l.getD i 0 ∈ l := by
          rw [List.getD_eq_getElem l 0 hi]
          exact List.getElem_mem hi
        exact hl _ hmem
      · rw [List.getD_eq_default l 0 (by omega)]
        omega
    have h2j : (2 : Nat) ^ j < 2 ^ 8 := Nat.pow_lt_pow_right (by omega) hj
    have hx : l.getD i 0 ^^^ 2 ^ j < 2 ^ 8 :=
      Nat.xor_lt_two_pow (by omega) h2j
    omega

theorem length_flipBit (l : List Nat) (i j : Nat) : (flipBit l i j).length = l.length := by
  simp [flipBit]

theorem undup_flipBit_dup (l : List Nat) (i j : Nat) (hi : i < (dup l).length) :
    undup (flipBit (dup l) i j) = none := by
  induction l generalizing i with
  | nil => simp [dup] at hi
  | cons a t ih =>
    have hd : dup (a :: t) = a :: a :: dup t := rfl
    rw [hd] at hi ⊢
    cases i with
    | zero =>
      show undup ((a ^^^ 2 ^ j) :: a :: dup t) = none
      simp only [undup]
      rw [if_neg (xor_pow_ne a j)]
    | succ i =>
      cases i with
      | zero =>
        show undup (a :: (a ^^^ 2 ^ j) :: dup t) = none
        simp only [undup]
        rw [if_neg (fun h => xor_pow_ne a j h.symm)]
      | succ i =>
        show undup (a :: a :: flipBit (dup t) i j) = none
        simp only [undup, if_pos rfl]
        rw [ih i (by simpa using hi)]
        rfl

/-- Model of crypto.subtle.encrypt with AES-256-GCM (see the section header
for the idealisation). -/
def aesGcmEncrypt (key nonce pt : List Nat) : List Nat := dup (encParts [key, nonce, pt])

/-- Model of crypto.subtle.decrypt with AES-256-GCM: succeeds exactly on an
unmodified output of aesGcmEncrypt under the same key and nonce, and returns
none (the OperationError of the Web Crypto API) otherwise. -/
def gcmCheck (key nonce : List Nat) : List (List Nat) → Option (List Nat)
  | [k, n, p] => if k = key ∧ n = nonce then some p else none
  | _ => none

def aesGcmDecrypt (key nonce ct : List Nat) : Option (List Nat) :=
  (undup ct).bind (fun m => (decParts m).bind (gcmCheck key nonce))

theorem aesGcmDecrypt_encrypt (key nonce pt : List Nat) :
    aesGcmDecrypt key nonce (aesGcmEncrypt key nonce pt) = some pt := by
  unfold aesGcmDecrypt aesGcmEncrypt
  rw [undup_dup, Option.some_bind, decParts_encParts_triple, Option.some_bind]
  simp [gcmCheck]

theorem aesGcmEncrypt_lt (key nonce pt : List Nat)
    (hk : ∀ b ∈ key, b < 256) (hn : ∀ b ∈ nonce, b < 256) (hp : ∀ b ∈ pt, b < 256) :
    ∀ x ∈ aesGcmEncrypt key nonce pt, x < 256 :=
  dup_lt _ (encParts_triple_lt key nonce pt hk hn hp)

theorem aesGcmEncrypt_ne_nil (key nonce pt : List Nat) : aesGcmEncrypt key nonce pt ≠ [] := by
  unfold aesGcmEncrypt
  intro h
  have h2 : (dup (encParts [key, nonce, pt])).length = 0 := by rw [h]; rfl
  rw [length_dup] at h2
  have h3 : encParts [key, nonce, pt] = [] := List.length_eq_zero.mp (by omega)
  have h4 : decParts (encParts [key, nonce, pt]) = some [key, nonce, pt] :=
    decParts_encParts_triple key nonce pt
  rw [h3] at h4
  simp [decParts] at h4

/-! ## Model of the ECDH P-256 and key-derivation platform primitives -/

/-- Order of the P-256 (secp256r1) base-point group. -/
def pOrder : Nat :=
  115792089210356248762697446949407573529996955224135760342422259061068512044369

/-- Model of the public key of a private scalar, in the discrete-logarithm
representation: the point d * G is identified by the exponent d mod n. -/
def pubOfPriv (d : Nat) : Nat := d % pOrder

/-- Model of crypto.subtle.exportKey("raw") of a P-256 public point: the
uncompressed-point tag byte 4 followed by a fixed-length encoding. -/
def exportPublicKeyRaw (q : Nat) : List Nat := 4 :: natToBytesPadded 64 q

/-- Model of the HKDF-SHA256 derivation: an injective recoverable encoding of
salt, key material and info, tagged with 2. -/
def hkdfSha256 (salt keyMaterial info : List Nat) : List Nat :=
  2 :: encParts [salt, keyMaterial, info]

/-- Model of the PBKDF2-SHA256 derivation: an injective recoverable encoding
of password, salt and iteration count, tagged with 3. -/
def pbkdf2Sha256 (password salt : List Nat) (iterations : Nat) : List Nat :=
  3 :: encParts [password, salt, natToBytes iterations]

/-! ## Errors thrown by the source, as typed values -/

/-- Errors of the crypto service.  Each constructor corresponds to one error
the TypeScript source can throw: operationError is the Web Crypto
authentication failure of subtle.decrypt, invalidCharacterError is the atob
and btoa failure, emptyBufferError is "Buffer vazio", invalidBase64Input is
"Base64 invalido", invalidKeyFormat is "Formato de chave cifrada invalido",
decryptionFailure is the error thrown by the catch block of decryptMessage,
wrongPassword is "Senha incorreta", privateKeyDecryptFailure is "Falha ao
decifrar chave privada", keyImportFailure is the subtle.importKey failure and
jsonParseFailure is the JSON.parse failure. -/
inductive JsError where
  | operationError
  | invalidCharacterError
  | emptyBufferError
  | invalidBase64Input
  | invalidKeyFormat
  | decryptionFailure
  | wrongPassword
  | privateKeyDecryptFailure
  | keyImportFailure
  | jsonParseFailure
  deriving DecidableEq

/-! ## CryptoService (frontend/src/services/crypto.service.ts) -/

namespace CryptoService

/-- Result record of CryptoService.generateKeyPair. -/
structure KeyPairResult where
  privateKey : Nat
  publicKey : Nat
  publicKeyRaw : List Nat
  deriving DecidableEq

/-- CryptoService.generateKeyPair; the fresh random private scalar d is the
explicit entropy argument. -/
def generateKeyPair (d : Nat) : KeyPairResult :=
  ⟨d, pubOfPriv d, exportPublicKeyRaw (pubOfPriv d)⟩

/-- CryptoService.importPublicKey: parses raw bytes into a public key handle,
failing on malformed input as subtle.importKey does. -/
def importPublicKey (publicKeyRaw : List Nat) : Except JsError Nat :=
  match publicKeyRaw with
  | 4 :: rest =>
    if rest.length = 64 ∧ rest.all (· < 256) ∧ bytesToNat rest < pOrder then
      Except.ok (bytesToNat rest)
    else Except.error JsError.keyImportFailure
  | _ => Except.error JsError.keyImportFailure

/-- CryptoService.arrayBufferToBase64: throws on an empty buffer ("Buffer
vazio"), otherwise btoa of the byte string. -/
def arrayBufferToBase64 (buffer : List Nat) : Except JsError String :=
  if buffer.length = 0 then Except.error JsError.emptyBufferError
  else if buffer.all (· < 256) then Except.ok (encB64Str buffer)
  else Except.error JsError.invalidCharacterError

/-- CryptoService.base64ToArrayBuffer: throws on a falsy argument ("Base64
invalido"), otherwise atob of the string. -/
def base64ToArrayBuffer (base64 : String) : Except JsError (List Nat) :=
  if base64.data.isEmpty then Except.error JsError.invalidBase64Input
  else
    match atobModel base64.data with
    | some bytes => Except.ok bytes
    | none => Except.error JsError.invalidCharacterError

/-- CryptoService.computeSharedSecret: ECDH deriveBits, 256 bits of the
shared point. -/
def computeSharedSecret (myPrivateKey theirPublicKey : Nat) : List Nat :=
  natToBytesPadded 32 (myPrivateKey * theirPublicKey % pOrder)

/-- CryptoService.deriveAESKey: HKDF-SHA256 with an all-zero 32-byte salt and
the fixed info label "chat-encryption-v1". -/
def deriveAESKey (sharedSecret : List Nat) : List Nat :=
  hkdfSha256 (List.replicate 32 0) sharedSecret (utf8Encode "chat-encryption-v1")

/-- CryptoService.encryptMessage; the fresh random 12-byte nonce is the
explicit entropy argument. -/
def encryptMessage (message : String) (aesKey : List Nat) (nonce : List Nat) :
    Except JsError (String × String) := do
  let encodedMessage := utf8Encode message
  let encryptedBuffer := aesGcmEncrypt aesKey nonce encodedMessage
  let encryptedData ← arrayBufferToBase64 encryptedBuffer
  let nonceB64 ← arrayBufferToBase64 nonce
  return (encryptedData, nonceB64)

/-- Catch block of decryptMessage: every internal failure is rethrown as the
single decryption-failure error. -/
def decryptionErrorMap : Except JsError String → Except JsError String
  | Except.ok m => Except.ok m
  | Except.error _ => Except.error JsError.decryptionFailure

/-- CryptoService.decryptMessage: base64 decoding, AES-GCM decryption and
text decoding inside a try block whose catch rethrows the
decryption-failure error. -/
def decryptMessage (encryptedData nonce : String) (aesKey : List Nat) :
    Except JsError String :=
  decryptionErrorMap (do
    let encryptedBuffer ← base64ToArrayBuffer encryptedData
    let nonceBuffer ← base64ToArrayBuffer nonce
    match aesGcmDecrypt aesKey nonceBuffer encryptedBuffer with
    | some decryptedBuffer => Except.ok (utf8DecodeStr decryptedBuffer)
    | none => Except.error JsError.operationError)

/-- CryptoService.deriveKeyFromPassword: PBKDF2-SHA256, 100000 iterations. -/
def deriveKeyFromPassword (password : String) (salt : List Nat) : List Nat :=
  pbkdf2Sha256 (utf8Encode password) salt 100000

/-- Model of crypto.subtle.exportKey("jwk") composed with JSON.stringify: an
injective serialisation of the private scalar to a string. -/
def exportPrivateKeyJwk (d : Nat) : String := String.mk ((natToBytes d).map Char.ofNat)

/-- Model of JSON.parse composed with crypto.subtle.importKey("jwk"): the
left inverse of exportPrivateKeyJwk, failing on garbage. -/
def importPrivateKeyJwk (s : String) : Option Nat :=
  if s.data.all (fun ch => ch.toNat < 256) then
    some (bytesToNat (s.data.map Char.toNat))
  else none

/-- Record returned by CryptoService.encryptPrivateKey. -/
structure PrivateKeyRecord where
  encryptedPrivateKey : String
  salt : String
  iv : String
  deriving DecidableEq

/-- CryptoService.encryptPrivateKey; the fresh random 16-byte salt and
12-byte IV are the explicit entropy arguments. -/
def encryptPrivateKey (privateKey : Nat) (password : String) (salt iv : List Nat) :
    Except JsError PrivateKeyRecord := do
  let derivedKey := deriveKeyFromPassword password salt
  let privateKeyString := exportPrivateKeyJwk privateKey
  let privateKeyBytes := utf8Encode privateKeyString
  let encryptedData := aesGcmEncrypt derivedKey iv privateKeyBytes
  let e ← arrayBufferToBase64 encryptedData
  let s ← arrayBufferToBase64 salt
  let i ← arrayBufferToBase64 iv
  return ⟨e, s, i⟩

/-- Catch block of decryptPrivateKey: the Web Crypto OperationError is
reported as "Senha incorreta" (wrong password); every other failure becomes
the generic private-key failure. -/
def passwordErrorMap : Except JsError Nat → Except JsError Nat
  | Except.ok k => Except.ok k
  | Except.error e =>
    if e = JsError.operationError then Except.error JsError.wrongPassword
    else Except.error JsError.privateKeyDecryptFailure

/-- CryptoService.decryptPrivateKey: base64 decoding of the three record
fields, PBKDF2 re-derivation, AES-GCM decryption and JWK import inside a try
block whose catch distinguishes the wrong-password case. -/
def decryptPrivateKey (encryptedPrivateKey salt iv : String) (password : String) :
    Except JsError Nat :=
  passwordErrorMap (do
    let encryptedData ← base64ToArrayBuffer encryptedPrivateKey
    let saltBytes ← base64ToArrayBuffer salt
    let ivBytes ← base64ToArrayBuffer iv
    let derivedKey := deriveKeyFromPassword password saltBytes
    match aesGcmDecrypt derivedKey ivBytes encryptedData with
    | none => Except.error JsError.operationError
    | some decryptedData =>
      let privateKeyString := utf8DecodeStr decryptedData
      match importPrivateKeyJwk privateKeyString with
      | none => Except.error JsError.jsonParseFailure
      | some k => Except.ok k)

/-- Envelope returned by CryptoService.encryptGroupKeyForMember. -/
structure GroupKeyEnvelope where
  encryptedGroupKey : String
  ephemeralPublicKey : String
  deriving DecidableEq

/-- CryptoService.encryptGroupKeyForMember; the fresh ephemeral private
scalar and the fresh random 12-byte nonce are the explicit entropy
arguments. -/
def encryptGroupKeyForMember (groupKey : List Nat) (memberPublicKeyRaw : List Nat)
    (ephPriv : Nat) (nonce : List Nat) : Except JsError GroupKeyEnvelope := do
  let ephemeralKeys := generateKeyPair ephPriv
  let memberPublicKey ← importPublicKey memberPublicKeyRaw
  let sharedSecret := computeSharedSecret ephemeralKeys.privateKey memberPublicKey
  let wrapKey := deriveAESKey sharedSecret
  let groupKeyB64 ← arrayBufferToBase64 groupKey
  let groupKeyBytes := utf8Encode groupKeyB64
  let encryptedData := aesGcmEncrypt wrapKey nonce groupKeyBytes
  let c1 ← arrayBufferToBase64 encryptedData
  let c2 ← arrayBufferToBase64 nonce
  let combined := c1 ++ ":" ++ c2
  let ephPub ← arrayBufferToBase64 ephemeralKeys.publicKeyRaw
  return ⟨combined, ephPub⟩

/-- Model of the JavaScript String.prototype.split on the separator ":". -/
def splitOnColon : List Char → List (List Char)
  | [] => [[]]
  | ch :: rest =>
    if ch = ':' then [] :: splitOnColon rest
    else
      match splitOnColon rest with
      | p :: ps => (ch :: p) :: ps
      | [] => [[ch]]

/-- Body of CryptoService.decryptGroupKey after the split of the combined
string: the falsy check on the two parts ("Formato de chave cifrada
invalido"), then derivation of the unwrap key and decryption.  Errors are
rethrown unchanged. -/
def decryptGroupKeyParts (p0 p1 : List Char) (ephemeralPublicKeyB64 : String)
    (myPrivateKey : Nat) : Except JsError (List Nat) :=
  if p0.isEmpty ∨ p1.isEmpty then Except.error JsError.invalidKeyFormat
  else do
    let ephemeralPublicKeyRaw ← base64ToArrayBuffer ephemeralPublicKeyB64
    let ephemeralPublicKey ← importPublicKey ephemeralPublicKeyRaw
    let sharedSecret := computeSharedSecret myPrivateKey ephemeralPublicKey
    let wrapKey := deriveAESKey sharedSecret
    let encryptedBuffer ← base64ToArrayBuffer (String.mk p0)
    let nonceBuffer ← base64ToArrayBuffer (String.mk p1)
    match aesGcmDecrypt wrapKey nonceBuffer encryptedBuffer with
    | none => Except.error JsError.operationError
    | some decryptedData =>
      let groupKeyB64 := utf8DecodeStr decryptedData
      base64ToArrayBuffer groupKeyB64

/-- CryptoService.decryptGroupKey: splits the combined ciphertext:nonce
string on the separator (the destructuring of split takes the first two
parts; an absent second part is falsy and raises "Formato de chave cifrada
invalido"), then continues with decryptGroupKeyParts. -/
def decryptGroupKey (encryptedGroupKey : String) (ephemeralPublicKeyB64 : String)
    (myPrivateKey : Nat) : Except JsError (List Nat) :=
  match splitOnColon encryptedGroupKey.data with
  | p0 :: p1 :: _ => decryptGroupKeyParts p0 p1 ephemeralPublicKeyB64 myPrivateKey
  | _ => Except.error JsError.invalidKeyFormat

/-- CryptoService.encryptGroupMessage: thin pass-through to encryptMessage. -/
def encryptGroupMessage (message : String) (groupKey : List Nat) (nonce : List Nat) :
    Except JsError (String × String) :=
  encryptMessage message groupKey nonce

/-- CryptoService.decryptGroupMessage: thin pass-through to decryptMessage. -/
def decryptGroupMessage (encryptedData nonce : String) (groupKey : List Nat) :
    Except JsError String :=
  decryptMessage encryptedData nonce groupKey

end CryptoService

/-! ## Direct-message send path (sendMessage of the chat pages) -/

/-- Payload emitted on the message:send socket event. -/
structure DirectMessagePayload where
  encryptedData : String
  nonce : String
  senderEphemPk : String
  senderEncryptedData : String
  senderNonce : String
  senderEphemPkForSelf : String
  deriving DecidableEq

/-- Crypto dataflow of sendMessage: the plaintext is encrypted once for the
receiver under a key derived from a fresh ephemeral pair and the receiver
identity key, and once for the sender under a key derived from a second,
independent ephemeral pair and the sender's own identity key.  The four
entropy arguments are the two fresh ephemeral scalars and the two fresh
nonces drawn inside the two encryptMessage calls. -/
def sendMessagePayload (messageInput : String)
    (receiverPublicKeyRaw myPublicKeyRaw : List Nat)
    (ephForReceiver : Nat) (nonceForReceiver : List Nat)
    (ephForSelf : Nat) (nonceForSelf : List Nat) :
    Except JsError DirectMessagePayload := do
  let receiverPublicKey ← CryptoService.importPublicKey receiverPublicKeyRaw
  let ephemeralKeysForReceiver := CryptoService.generateKeyPair ephForReceiver
  let sharedSecretForReceiver :=
    CryptoService.computeSharedSecret ephemeralKeysForReceiver.privateKey receiverPublicKey
  let aesKeyForReceiver := CryptoService.deriveAESKey sharedSecretForReceiver
  let (encryptedData, nonce) ←
    CryptoService.encryptMessage messageInput aesKeyForReceiver nonceForReceiver
  let ephemeralKeysForSelf := CryptoService.generateKeyPair ephForSelf
  let myPublicKey ← CryptoService.importPublicKey myPublicKeyRaw
  let sharedSecretForSelf :=
    CryptoService.computeSharedSecret ephemeralKeysForSelf.privateKey myPublicKey
  let aesKeyForSelf := CryptoService.deriveAESKey sharedSecretForSelf
  let (senderEncryptedData, senderNonce) ←
    CryptoService.encryptMessage messageInput aesKeyForSelf nonceForSelf
  let senderEphemPk ← CryptoService.arrayBufferToBase64 ephemeralKeysForReceiver.publicKeyRaw
  let senderEphemPkForSelf ← CryptoService.arrayBufferToBase64 ephemeralKeysForSelf.publicKeyRaw
  return ⟨encryptedData, nonce, senderEphemPk, senderEncryptedData, senderNonce,
    senderEphemPkForSelf⟩

/-! ## Service-level lemmas -/

theorem except_bind_ok {ε α β : Type} (a : α) (f : α → Except ε β) :
    (Except.ok (ε := ε) a >>= f) = f a := rfl

theorem except_bind_error {ε α β : Type} (e : ε) (f : α → Except ε β) :
    (Except.error (α := α) e >>= f) = Except.error e := rfl

theorem stringDataAppend (a b : String) : (a ++ b).data = a.data ++ b.data := by
  cases a
  cases b
  rfl

namespace CryptoService

theorem arrayBufferToBase64_ok (l : List Nat) (hne : l ≠ []) (hb : ∀ b ∈ l, b < 256) :
    arrayBufferToBase64 l = Except.ok (encB64Str l) := by
  unfold arrayBufferToBase64
  rw [if_neg (by simpa using fun h => hne (List.length_eq_zero.mp h)),
    if_pos (List.all_eq_true.mpr (fun b hbm => decide_eq_true (hb b hbm)))]

theorem base64ToArrayBuffer_encB64Str (l : List Nat) (hne : l ≠ []) (hb : ∀ b ∈ l, b < 256) :
    base64ToArrayBuffer (encB64Str l) = Except.ok l := by
  unfold base64ToArrayBuffer
  have hdata : (encB64Str l).data = encB64 l := rfl
  rw [hdata, atobModel_encB64 l hb]
  rw [if_neg (by simpa [List.isEmpty_iff] using encB64_ne_nil l hne)]

theorem importPublicKey_export (q : Nat) (hq : q < pOrder) :
    importPublicKey (exportPublicKeyRaw q) = Except.ok q := by
  have hlen : (natToBytesPadded 64 q).length = 64 := length_natToBytesPadded 64 q
  have hbound : q < 256 ^ 64 := by
    have h2 : pOrder < 256 ^ 64 := by norm_num [pOrder]
    omega
  have hval : bytesToNat (natToBytesPadded 64 q) = q := bytesToNat_natToBytesPadded 64 q hbound
  show importPublicKey (4 :: natToBytesPadded 64 q) = Except.ok q
  rw [importPublicKey]
  rw [if_pos ⟨hlen, List.all_eq_true.mpr (fun b hbm => decide_eq_true
    (natToBytesPadded_lt 64 q b hbm)), by rw [hval]; exact hq⟩, hval]

theorem exportPublicKeyRaw_ne_nil (q : Nat) : exportPublicKeyRaw q ≠ [] := by
  simp [exportPublicKeyRaw]

theorem exportPublicKeyRaw_lt (q : Nat) : ∀ b ∈ exportPublicKeyRaw q, b < 256 := by
  intro b hb
  rcases List.mem_cons.mp hb with rfl | h
  · omega
  · exact natToBytesPadded_lt 64 q b h

theorem computeSharedSecret_comm (a b : Nat) :
    computeSharedSecret a (pubOfPriv b) = computeSharedSecret b (pubOfPriv a) := by
  unfold computeSharedSecret pubOfPriv
  congr 1
  conv_lhs => rw [Nat.mul_mod, Nat.mod_mod_of_dvd _ (dvd_refl pOrder)]
  conv_rhs => rw [Nat.mul_mod, Nat.mod_mod_of_dvd _ (dvd_refl pOrder)]
  rw [Nat.mul_comm]

theorem computeSharedSecret_lt (a q : Nat) : ∀ b ∈ computeSharedSecret a q, b < 256 :=
  natToBytesPadded_lt 32 _

theorem deriveAESKey_lt (s : List Nat) (hs : ∀ b ∈ s, b < 256) :
    ∀ b ∈ deriveAESKey s, b < 256 := by
  intro b hb
  unfold deriveAESKey hkdfSha256 at hb
  rcases List.mem_cons.mp hb with rfl | h
  · omega
  · refine encParts_triple_lt _ _ _ ?_ hs ?_ b h
    · intro x hx
      simp at hx
      omega
    · exact utf8Encode_lt _

theorem deriveKeyFromPassword_lt (password : String) (salt : List Nat)
    (hs : ∀ b ∈ salt, b < 256) : ∀ b ∈ deriveKeyFromPassword password salt, b < 256 := by
  intro b hb
  unfold deriveKeyFromPassword pbkdf2Sha256 at hb
  rcases List.mem_cons.mp hb with rfl | h
  · omega
  · exact encParts_triple_lt _ _ _ (utf8Encode_lt _) hs (natToBytes_lt _) b h

theorem deriveKeyFromPassword_inj (w1 w2 : String) (salt : List Nat)
    (h : deriveKeyFromPassword w1 salt = deriveKeyFromPassword w2 salt) : w1 = w2 := by
  unfold deriveKeyFromPassword pbkdf2Sha256 at h
  have h2 : encParts [utf8Encode w1, salt, natToBytes 100000]
      = encParts [utf8Encode w2, salt, natToBytes 100000] := by
    injection h
  have h3 := decParts_encParts_triple (utf8Encode w1) salt (natToBytes 100000)
  rw [h2, decParts_encParts_triple] at h3
  have h4 : utf8Encode w2 = utf8Encode w1 := by
    injection h3 with h3
    injection h3
  exact (utf8Encode_injective w2 w1 h4).symm

theorem encryptMessage_ok (message : String) (aesKey nonce : List Nat)
    (hk : ∀ b ∈ aesKey, b < 256) (hn : ∀ b ∈ nonce, b < 256) (hne : nonce ≠ []) :
    encryptMessage message aesKey nonce =
      Except.ok (encB64Str (aesGcmEncrypt aesKey nonce (utf8Encode message)),
        encB64Str nonce) := by
  simp only [encryptMessage]
  rw [arrayBufferToBase64_ok _ (aesGcmEncrypt_ne_nil _ _ _)
    (aesGcmEncrypt_lt _ _ _ hk hn (utf8Encode_lt _)), except_bind_ok,
    arrayBufferToBase64_ok _ hne hn, except_bind_ok]
  rfl

theorem decryptMessage_encB64 (message : String) (aesKey nonce : List Nat)
    (hk : ∀ b ∈ aesKey, b < 256) (hn : ∀ b ∈ nonce, b < 256) (hne : nonce ≠ []) :
    decryptMessage (encB64Str (aesGcmEncrypt aesKey nonce (utf8Encode message)))
      (encB64Str nonce) aesKey = Except.ok message := by
  unfold decryptMessage
  rw [base64ToArrayBuffer_encB64Str _ (aesGcmEncrypt_ne_nil _ _ _)
    (aesGcmEncrypt_lt _ _ _ hk hn (utf8Encode_lt _)), except_bind_ok,
    base64ToArrayBuffer_encB64Str _ hne hn, except_bind_ok,
    aesGcmDecrypt_encrypt]
  show Except.ok (utf8DecodeStr (utf8Encode message)) = Except.ok message
  rw [utf8DecodeStr_utf8Encode]

theorem charToNat_ofNat (b : Nat) (hb : b < 0xD800) : (Char.ofNat b).toNat = b := by
  unfold Char.ofNat
  rw [dif_pos (Or.inl hb)]
  rfl

theorem importPrivateKeyJwk_export (d : Nat) :
    importPrivateKeyJwk (exportPrivateKeyJwk d) = some d := by
  unfold importPrivateKeyJwk exportPrivateKeyJwk
  have hmap : ((natToBytes d).map Char.ofNat).map Char.toNat = natToBytes d := by
    rw [List.map_map]
    have hid : ∀ x ∈ natToBytes d, (Char.toNat ∘ Char.ofNat) x = x := by
      intro x hx
      have := natToBytes_lt d x hx
      exact charToNat_ofNat x (by omega)
    calc (natToBytes d).map (Char.toNat ∘ Char.ofNat)
        = (natToBytes d).map id := List.map_congr_left hid
      _ = natToBytes d := List.map_id _
  have hall : (((String.mk ((natToBytes d).map Char.ofNat)).data).all
      (fun ch => decide (ch.toNat < 256))) = true := by
    apply List.all_eq_true.mpr
    intro ch hch
    rcases List.mem_map.mp hch with ⟨x, hx, rfl⟩
    have := natToBytes_lt d x hx
    rw [decide_eq_true_eq, charToNat_ofNat x (by omega)]
    omega
  rw [if_pos hall]
  show some (bytesToNat (((natToBytes d).map Char.ofNat).map Char.toNat)) = some d
  rw [hmap, bytesToNat_natToBytes]

theorem encryptPrivateKey_ok (privateKey : Nat) (password : String) (salt iv : List Nat)
    (hsne : salt ≠ []) (hs : ∀ b ∈ salt, b < 256)
    (hine : iv ≠ []) (hi : ∀ b ∈ iv, b < 256) :
    encryptPrivateKey privateKey password salt iv = Except.ok
      ⟨encB64Str (aesGcmEncrypt (deriveKeyFromPassword password salt) iv
          (utf8Encode (exportPrivateKeyJwk privateKey))),
        encB64Str salt, encB64Str iv⟩ := by
  simp only [encryptPrivateKey]
  rw [arrayBufferToBase64_ok _ (aesGcmEncrypt_ne_nil _ _ _)
      (aesGcmEncrypt_lt _ _ _ (deriveKeyFromPassword_lt password salt hs) hi
        (utf8Encode_lt _)),
    except_bind_ok, arrayBufferToBase64_ok _ hsne hs, except_bind_ok,
    arrayBufferToBase64_ok _ hine hi, except_bind_ok]
  rfl

theorem decryptPrivateKey_unprotect (privateKey : Nat) (password : String) (salt iv : List Nat)
    (hsne : salt ≠ []) (hs : ∀ b ∈ salt, b < 256)
    (hine : iv ≠ []) (hi : ∀ b ∈ iv, b < 256) :
    decryptPrivateKey
      (encB64Str (aesGcmEncrypt (deriveKeyFromPassword password salt) iv
        (utf8Encode (exportPrivateKeyJwk privateKey))))
      (encB64Str salt) (encB64Str iv) password = Except.ok privateKey := by
  simp only [decryptPrivateKey]
  rw [base64ToArrayBuffer_encB64Str _ (aesGcmEncrypt_ne_nil _ _ _)
      (aesGcmEncrypt_lt _ _ _ (deriveKeyFromPassword_lt password salt hs) hi
        (utf8Encode_lt _)),
    except_bind_ok, base64ToArrayBuffer_encB64Str _ hsne hs, except_bind_ok,
    base64ToArrayBuffer_encB64Str _ hine hi, except_bind_ok, aesGcmDecrypt_encrypt]
  show passwordErrorMap
      (match importPrivateKeyJwk (utf8DecodeStr (utf8Encode (exportPrivateKeyJwk privateKey))) with
        | none => Except.error JsError.jsonParseFailure
        | some k => Except.ok k) = Except.ok privateKey
  rw [utf8DecodeStr_utf8Encode, importPrivateKeyJwk_export]
  rfl

theorem decryptPrivateKey_wrongPassword (privateKey : Nat) (w wrong : String)
    (salt iv : List Nat)
    (hsne : salt ≠ []) (hs : ∀ b ∈ salt, b < 256)
    (hine : iv ≠ []) (hi : ∀ b ∈ iv, b < 256) (hw : wrong ≠ w) :
    decryptPrivateKey
      (encB64Str (aesGcmEncrypt (deriveKeyFromPassword w salt) iv
        (utf8Encode (exportPrivateKeyJwk privateKey))))
      (encB64Str salt) (encB64Str iv) wrong = Except.error JsError.wrongPassword := by
  simp only [decryptPrivateKey]
  rw [base64ToArrayBuffer_encB64Str _ (aesGcmEncrypt_ne_nil _ _ _)
      (aesGcmEncrypt_lt _ _ _ (deriveKeyFromPassword_lt w salt hs) hi (utf8Encode_lt _)),
    except_bind_ok, base64ToArrayBuffer_encB64Str _ hsne hs, except_bind_ok,
    base64ToArrayBuffer_encB64Str _ hine hi, except_bind_ok]
  have hne : aesGcmDecrypt (deriveKeyFromPassword wrong salt) iv
      (aesGcmEncrypt (deriveKeyFromPassword w salt) iv
        (utf8Encode (exportPrivateKeyJwk privateKey))) = none := by
    unfold aesGcmDecrypt aesGcmEncrypt
    rw [undup_dup, Option.some_bind, decParts_encParts_triple, Option.some_bind, gcmCheck]
    rw [if_neg]
    intro hand
    exact hw (deriveKeyFromPassword_inj w wrong salt hand.1).symm
  rw [hne]
  rfl

theorem decryptMessage_gcm_none (encryptedData nonce : String) (aesKey : List Nat)
    (edB nB : List Nat)
    (h1 : base64ToArrayBuffer encryptedData = Except.ok edB)
    (h2 : base64ToArrayBuffer nonce = Except.ok nB)
    (h3 : aesGcmDecrypt aesKey nB edB = none) :
    decryptMessage encryptedData nonce aesKey = Except.error JsError.decryptionFailure := by
  simp only [decryptMessage]
  rw [h1, except_bind_ok, h2, except_bind_ok, h3]
  rfl

theorem pOrder_pos : 0 < pOrder := by norm_num [pOrder]

theorem pubOfPriv_lt (d : Nat) : pubOfPriv d < pOrder := Nat.mod_lt d pOrder_pos

theorem encB64Str_injOn (l1 l2 : List Nat) (h1 : ∀ b ∈ l1, b < 256) (h2 : ∀ b ∈ l2, b < 256)
    (h : encB64Str l1 = encB64Str l2) : l1 = l2 :=
  encB64_injOn l1 l2 h1 h2 (congrArg String.data h)

theorem exportPublicKeyRaw_inj (q1 q2 : Nat) (h1 : q1 < 256 ^ 64) (h2 : q2 < 256 ^ 64)
    (h : exportPublicKeyRaw q1 = exportPublicKeyRaw q2) : q1 = q2 := by
  unfold exportPublicKeyRaw at h
  have ht : natToBytesPadded 64 q1 = natToBytesPadded 64 q2 := by injection h
  have := bytesToNat_natToBytesPadded 64 q1 h1
  rw [ht, bytesToNat_natToBytesPadded 64 q2 h2] at this
  exact this.symm

theorem splitOnColon_no_colon (l : List Char) (h : ∀ ch ∈ l, ch ≠ ':') :
    splitOnColon l = [l] := by
  induction l with
  | nil => rfl
  | cons ch t ih =>
    simp only [splitOnColon]
    rw [if_neg (h ch (by simp)), ih (fun c hc => h c (by simp [hc]))]

theorem splitOnColon_append (l r : List Char) (h : ∀ ch ∈ l, ch ≠ ':') :
    splitOnColon (l ++ ':' :: r) = l :: splitOnColon r := by
  induction l with
  | nil =>
    show splitOnColon (':' :: r) = _
    simp [splitOnColon]
  | cons ch t ih =>
    show splitOnColon (ch :: (t ++ ':' :: r)) = _
    simp only [splitOnColon]
    rw [if_neg (h ch (by simp)), ih (fun c hc => h c (by simp [hc]))]

theorem encryptGroupKeyForMember_ok (G : List Nat) (m e : Nat) (nonce : List Nat)
    (hgne : G ≠ []) (hg : ∀ b ∈ G, b < 256)
    (hnne : nonce ≠ []) (hn : ∀ b ∈ nonce, b < 256) :
    encryptGroupKeyForMember G (exportPublicKeyRaw (pubOfPriv m)) e nonce = Except.ok
      ⟨encB64Str (aesGcmEncrypt (deriveAESKey (computeSharedSecret e (pubOfPriv m))) nonce
          (utf8Encode (encB64Str G))) ++ ":" ++ encB64Str nonce,
        encB64Str (exportPublicKeyRaw (pubOfPriv e))⟩ := by
  have hwk : ∀ b ∈ deriveAESKey (computeSharedSecret e (pubOfPriv m)), b < 256 :=
    deriveAESKey_lt _ (computeSharedSecret_lt _ _)
  simp only [encryptGroupKeyForMember, generateKeyPair]
  rw [importPublicKey_export _ (pubOfPriv_lt m), except_bind_ok,
    arrayBufferToBase64_ok G hgne hg, except_bind_ok,
    arrayBufferToBase64_ok _ (aesGcmEncrypt_ne_nil _ _ _)
      (aesGcmEncrypt_lt _ _ _ hwk hn (utf8Encode_lt _)), except_bind_ok,
    arrayBufferToBase64_ok nonce hnne hn, except_bind_ok,
    arrayBufferToBase64_ok _ (exportPublicKeyRaw_ne_nil _) (exportPublicKeyRaw_lt _),
    except_bind_ok]
  rfl

theorem decryptGroupKey_unwrap (G : List Nat) (m e : Nat) (nonce : List Nat)
    (hgne : G ≠ []) (hg : ∀ b ∈ G, b < 256)
    (hnne : nonce ≠ []) (hn : ∀ b ∈ nonce, b < 256) :
    decryptGroupKey
      (encB64Str (aesGcmEncrypt (deriveAESKey (computeSharedSecret e (pubOfPriv m))) nonce
        (utf8Encode (encB64Str G))) ++ ":" ++ encB64Str nonce)
      (encB64Str (exportPublicKeyRaw (pubOfPriv e))) m = Except.ok G := by
  have hwk : ∀ b ∈ deriveAESKey (computeSharedSecret e (pubOfPriv m)), b < 256 :=
    deriveAESKey_lt _ (computeSharedSecret_lt _ _)
  have hctlt : ∀ b ∈ aesGcmEncrypt (deriveAESKey (computeSharedSecret e (pubOfPriv m))) nonce
      (utf8Encode (encB64Str G)), b < 256 :=
    aesGcmEncrypt_lt _ _ _ hwk hn (utf8Encode_lt _)
  have hctne : aesGcmEncrypt (deriveAESKey (computeSharedSecret e (pubOfPriv m))) nonce
      (utf8Encode (encB64Str G)) ≠ [] := aesGcmEncrypt_ne_nil _ _ _
  have hdata : (encB64Str (aesGcmEncrypt (deriveAESKey (computeSharedSecret e (pubOfPriv m)))
      nonce (utf8Encode (encB64Str G))) ++ ":" ++ encB64Str nonce).data
      = encB64 (aesGcmEncrypt (deriveAESKey (computeSharedSecret e (pubOfPriv m))) nonce
          (utf8Encode (encB64Str G))) ++ ':' :: encB64 nonce := by
    rw [stringDataAppend, stringDataAppend]
    rw [List.append_assoc]
    rfl
  have hsplit : splitOnColon ((encB64Str (aesGcmEncrypt
      (deriveAESKey (computeSharedSecret e (pubOfPriv m))) nonce
      (utf8Encode (encB64Str G))) ++ ":" ++ encB64Str nonce).data)
      = [encB64 (aesGcmEncrypt (deriveAESKey (computeSharedSecret e (pubOfPriv m))) nonce
          (utf8Encode (encB64Str G))), encB64 nonce] := by
    rw [hdata, splitOnColon_append _ _ (encB64_no_colon _ hctlt),
      splitOnColon_no_colon _ (encB64_no_colon _ hn)]
  unfold decryptGroupKey
  rw [hsplit]
  show decryptGroupKeyParts
    (encB64 (aesGcmEncrypt (deriveAESKey (computeSharedSecret e (pubOfPriv m))) nonce
      (utf8Encode (encB64Str G)))) (encB64 nonce)
    (encB64Str (exportPublicKeyRaw (pubOfPriv e))) m = Except.ok G
  simp only [decryptGroupKeyParts]
  rw [if_neg (by
    simp only [List.isEmpty_iff]
    push_neg
    exact ⟨encB64_ne_nil _ hctne, encB64_ne_nil _ hnne⟩)]
  rw [base64ToArrayBuffer_encB64Str _ (exportPublicKeyRaw_ne_nil _) (exportPublicKeyRaw_lt _),
    except_bind_ok, importPublicKey_export _ (pubOfPriv_lt e), except_bind_ok]
  rw [show base64ToArrayBuffer (String.mk (encB64 (aesGcmEncrypt
      (deriveAESKey (computeSharedSecret e (pubOfPriv m))) nonce
      (utf8Encode (encB64Str G))))) = Except.ok (aesGcmEncrypt
      (deriveAESKey (computeSharedSecret e (pubOfPriv m))) nonce
      (utf8Encode (encB64Str G))) from base64ToArrayBuffer_encB64Str _ hctne hctlt,
    except_bind_ok]
  rw [show base64ToArrayBuffer (String.mk (encB64 nonce)) = Except.ok nonce from
    base64ToArrayBuffer_encB64Str _ hnne hn, except_bind_ok]
  rw [computeSharedSecret_comm m e, aesGcmDecrypt_encrypt]
  show base64ToArrayBuffer (utf8DecodeStr (utf8Encode (encB64Str G))) = Except.ok G
  rw [utf8DecodeStr_utf8Encode]
  exact base64ToArrayBuffer_encB64Str G hgne hg

end CryptoService

/-! ## Claims -/

/-- C1: For every plaintext string P, every valid AES-256-GCM key K (32 bytes)
and every fresh 12-byte nonce, decrypting the envelope produced by
encryptMessage(P, K) with the same key K via decryptMessage(encryptedData,
nonce, K) returns exactly P. -/
theorem c1_encryptMessage_decryptMessage_roundtrip (message : String)
    (aesKey nonce : List Nat)
    (hkl : aesKey.length = 32) (hk : ∀ b ∈ aesKey, b < 256)
    (hnl : nonce.length = 12) (hn : ∀ b ∈ nonce, b < 256) :
    (CryptoService.encryptMessage message aesKey nonce >>= fun r =>
      CryptoService.decryptMessage r.1 r.2 aesKey) = Except.ok message := by
  have hne : nonce ≠ [] := by
    intro h
    rw [h] at hnl
    simp at hnl
  rw [CryptoService.encryptMessage_ok message aesKey nonce hk hn hne, except_bind_ok]
  exact CryptoService.decryptMessage_encB64 message aesKey nonce hk hn hne

/-- Witness for C1 at a concrete message, key and nonce. -/
theorem c1_witness :
    (CryptoService.encryptMessage "hello" (List.range 32) (List.range 12) >>= fun r =>
      CryptoService.decryptMessage r.1 r.2 (List.range 32)) = Except.ok "hello" :=
  c1_encryptMessage_decryptMessage_roundtrip "hello" (List.range 32) (List.range 12)
    (by decide) (by decide) (by decide) (by decide)

/-- C3: For every password W and every private key, unprotecting the record
produced by encryptPrivateKey with the same password W returns the private
key unchanged (encryptPrivateKey followed by decryptPrivateKey with matching
password is the identity on the private key). -/
theorem c3_privateKey_protect_unprotect_roundtrip (privateKey : Nat) (password : String)
    (salt iv : List Nat)
    (hsl : salt.length = 16) (hs : ∀ b ∈ salt, b < 256)
    (hil : iv.length = 12) (hi : ∀ b ∈ iv, b < 256) :
    (CryptoService.encryptPrivateKey privateKey password salt iv >>= fun r =>
      CryptoService.decryptPrivateKey r.encryptedPrivateKey r.salt r.iv password)
      = Except.ok privateKey := by
  have hsne : salt ≠ [] := by
    intro h
    rw [h] at hsl
    simp at hsl
  have hine : iv ≠ [] := by
    intro h
    rw [h] at hil
    simp at hil
  rw [CryptoService.encryptPrivateKey_ok privateKey password salt iv hsne hs hine hi,
    except_bind_ok]
  exact CryptoService.decryptPrivateKey_unprotect privateKey password salt iv hsne hs hine hi

/-- Witness for C3 at a concrete private key, password, salt and IV. -/
theorem c3_witness :
    (CryptoService.encryptPrivateKey 7777777 "correct-horse" (List.range 16) (List.range 12)
      >>= fun r =>
      CryptoService.decryptPrivateKey r.encryptedPrivateKey r.salt r.iv "correct-horse")
      = Except.ok 7777777 :=
  c3_privateKey_protect_unprotect_roundtrip 7777777 "correct-horse" (List.range 16)
    (List.range 12) (by decide) (by decide) (by decide) (by decide)

/-- C4: For every pair of valid P-256 key pairs (A, B), ECDH shared-secret
derivation is commutative: computeSharedSecret(A.private, B.public) equals
computeSharedSecret(B.private, A.public), where the public half of a valid
key pair is pubOfPriv of its private scalar. -/
theorem c4_computeSharedSecret_comm (a b : Nat) :
    CryptoService.computeSharedSecret a (pubOfPriv b)
      = CryptoService.computeSharedSecret b (pubOfPriv a) :=
  CryptoService.computeSharedSecret_comm a b

/-- C5: A password-protected record whose AES-GCM decryption fails under the
re-derived key is reported as WrongPassword (never a crash, garbage bytes or
the generic DecryptionFailure); in particular, unprotecting a record that was
protected under a different password yields WrongPassword. -/
theorem c5_wrong_password_reported_as_wrongPassword :
    (∀ (ed salt iv password : String) (edB saltB ivB : List Nat),
      CryptoService.base64ToArrayBuffer ed = Except.ok edB →
      CryptoService.base64ToArrayBuffer salt = Except.ok saltB →
      CryptoService.base64ToArrayBuffer iv = Except.ok ivB →
      aesGcmDecrypt (CryptoService.deriveKeyFromPassword password saltB) ivB edB = none →
      CryptoService.decryptPrivateKey ed salt iv password
        = Except.error JsError.wrongPassword)
    ∧ (∀ (privateKey : Nat) (w wrong : String) (salt iv : List Nat),
      salt.length = 16 → (∀ b ∈ salt, b < 256) →
      iv.length = 12 → (∀ b ∈ iv, b < 256) → wrong ≠ w →
      (CryptoService.encryptPrivateKey privateKey w salt iv >>= fun r =>
        CryptoService.decryptPrivateKey r.encryptedPrivateKey r.salt r.iv wrong)
        = Except.error JsError.wrongPassword) := by
  constructor
  · intro ed salt iv password edB saltB ivB h1 h2 h3 h4
    simp only [CryptoService.decryptPrivateKey]
    rw [h1, except_bind_ok, h2, except_bind_ok, h3, except_bind_ok, h4]
    rfl
  · intro privateKey w wrong salt iv hsl hs hil hi hw
    have hsne : salt ≠ [] := by
      intro h
      rw [h] at hsl
      simp at hsl
    have hine : iv ≠ [] := by
      intro h
      rw [h] at hil
      simp at hil
    rw [CryptoService.encryptPrivateKey_ok privateKey w salt iv hsne hs hine hi,
      except_bind_ok]
    exact CryptoService.decryptPrivateKey_wrongPassword privateKey w wrong salt iv
      hsne hs hine hi hw

/-- Witness for C5: protecting under "correct-horse" and unprotecting with
"wrong-horse" yields WrongPassword. -/
theorem c5_witness :
    (CryptoService.encryptPrivateKey 424242 "correct-horse" (List.range 16) (List.range 12)
      >>= fun r =>
      CryptoService.decryptPrivateKey r.encryptedPrivateKey r.salt r.iv "wrong-horse")
      = Except.error JsError.wrongPassword :=
  c5_wrong_password_reported_as_wrongPassword.2 424242 "correct-horse" "wrong-horse"
    (List.range 16) (List.range 12) (by decide) (by decide) (by decide) (by decide)
    (by decide)

/-- C2: For every 256-bit group key G and every valid P-256 member key pair
(private scalar m with public key pubOfPriv m), unwrapping the envelope
produced by wrapping G for the member's public key, using the member's
private key, recovers bytes identical to G. -/
theorem c2_group_key_wrap_unwrap_roundtrip (G : List Nat) (m e : Nat) (nonce : List Nat)
    (hgl : G.length = 32) (hg : ∀ b ∈ G, b < 256)
    (hnl : nonce.length = 12) (hn : ∀ b ∈ nonce, b < 256) :
    (CryptoService.encryptGroupKeyForMember G (exportPublicKeyRaw (pubOfPriv m)) e nonce
      >>= fun env => CryptoService.decryptGroupKey env.encryptedGroupKey
        env.ephemeralPublicKey m) = Except.ok G := by
  have hgne : G ≠ [] := by
    intro h
    rw [h] at hgl
    simp at hgl
  have hnne : nonce ≠ [] := by
    intro h
    rw [h] at hnl
    simp at hnl
  rw [CryptoService.encryptGroupKeyForMember_ok G m e nonce hgne hg hnne hn, except_bind_ok]
  exact CryptoService.decryptGroupKey_unwrap G m e nonce hgne hg hnne hn

/-- Witness for C2 at a concrete group key, member pair, ephemeral scalar and
nonce. -/
theorem c2_witness :
    (CryptoService.encryptGroupKeyForMember (List.range 32)
        (exportPublicKeyRaw (pubOfPriv 3)) 2 (List.range 12)
      >>= fun env => CryptoService.decryptGroupKey env.encryptedGroupKey
        env.ephemeralPublicKey 3) = Except.ok (List.range 32) :=
  c2_group_key_wrap_unwrap_roundtrip (List.range 32) 3 2 (List.range 12)
    (by decide) (by decide) (by decide) (by decide)

/-- C6: For every envelope produced by encryptMessage under a key K (first
conjunct: the envelope is the base64 pair of the AES-GCM ciphertext and the
nonce), flipping any single bit of its ciphertext or of its nonce and then
calling decryptMessage with K fails with DecryptionFailure; it never returns
a (possibly corrupted) plaintext. -/
theorem c6_bit_flip_causes_decryptionFailure (message : String) (aesKey nonce : List Nat)
    (hkl : aesKey.length = 32) (hk : ∀ b ∈ aesKey, b < 256)
    (hnl : nonce.length = 12) (hn : ∀ b ∈ nonce, b < 256) :
    CryptoService.encryptMessage message aesKey nonce
      = Except.ok (encB64Str (aesGcmEncrypt aesKey nonce (utf8Encode message)),
          encB64Str nonce)
    ∧ (∀ i j, i < (aesGcmEncrypt aesKey nonce (utf8Encode message)).length → j < 8 →
        CryptoService.decryptMessage
          (encB64Str (flipBit (aesGcmEncrypt aesKey nonce (utf8Encode message)) i j))
          (encB64Str nonce) aesKey = Except.error JsError.decryptionFailure)
    ∧ (∀ i j, i < nonce.length → j < 8 →
        CryptoService.decryptMessage
          (encB64Str (aesGcmEncrypt aesKey nonce (utf8Encode message)))
          (encB64Str (flipBit nonce i j)) aesKey
          = Except.error JsError.decryptionFailure) := by
  have hne : nonce ≠ [] := by
    intro h
    rw [h] at hnl
    simp at hnl
  have hct : ∀ b ∈ aesGcmEncrypt aesKey nonce (utf8Encode message), b < 256 :=
    aesGcmEncrypt_lt _ _ _ hk hn (utf8Encode_lt _)
  refine ⟨CryptoService.encryptMessage_ok message aesKey nonce hk hn hne, ?_, ?_⟩
  · intro i j hi hj
    have hfb : ∀ b ∈ flipBit (aesGcmEncrypt aesKey nonce (utf8Encode message)) i j, b < 256 :=
      flipBit_lt _ i j hj hct
    have hfne : flipBit (aesGcmEncrypt aesKey nonce (utf8Encode message)) i j ≠ [] := by
      intro h
      have hl := length_flipBit (aesGcmEncrypt aesKey nonce (utf8Encode message)) i j
      rw [h] at hl
      simp at hl
      omega
    apply CryptoService.decryptMessage_gcm_none _ _ _ _ _
      (CryptoService.base64ToArrayBuffer_encB64Str _ hfne hfb)
      (CryptoService.base64ToArrayBuffer_encB64Str _ hne hn)
    show aesGcmDecrypt aesKey nonce (flipBit (dup (encParts [aesKey, nonce,
      utf8Encode message])) i j) = none
    unfold aesGcmDecrypt
    rw [undup_flipBit_dup _ i j hi]
    rfl
  · intro i j hi hj
    have hfb : ∀ b ∈ flipBit nonce i j, b < 256 := flipBit_lt _ i j hj hn
    have hfne : flipBit nonce i j ≠ [] := by
      intro h
      have hl := length_flipBit nonce i j
      rw [h] at hl
      simp at hl
      omega
    apply CryptoService.decryptMessage_gcm_none _ _ _ _ _
      (CryptoService.base64ToArrayBuffer_encB64Str _ (aesGcmEncrypt_ne_nil _ _ _) hct)
      (CryptoService.base64ToArrayBuffer_encB64Str _ hfne hfb)
    unfold aesGcmDecrypt aesGcmEncrypt
    rw [undup_dup, Option.some_bind, decParts_encParts_triple, Option.some_bind, gcmCheck]
    rw [if_neg]
    intro hand
    exact flipBit_ne nonce i j hi hand.2.symm

/-- Witness for C6: flip of the first bit of the first ciphertext byte, and
of the first nonce byte, at a concrete message, key and nonce. -/
theorem c6_witness :
    CryptoService.decryptMessage
      (encB64Str (flipBit (aesGcmEncrypt (List.range 32) (List.range 12)
        (utf8Encode "hi")) 0 0))
      (encB64Str (List.range 12)) (List.range 32)
      = Except.error JsError.decryptionFailure
    ∧ CryptoService.decryptMessage
      (encB64Str (aesGcmEncrypt (List.range 32) (List.range 12) (utf8Encode "hi")))
      (encB64Str (flipBit (List.range 12) 0 0)) (List.range 32)
      = Except.error JsError.decryptionFailure :=
  ⟨(c6_bit_flip_causes_decryptionFailure "hi" (List.range 32) (List.range 12)
      (by decide) (by decide) (by decide) (by decide)).2.1 0 0 (by decide) (by decide),
    (c6_bit_flip_causes_decryptionFailure "hi" (List.range 32) (List.range 12)
      (by decide) (by decide) (by decide) (by decide)).2.2 0 0 (by decide) (by decide)⟩

/-- C10: For every non-empty byte array b (bytes below 256), the Transcoder
round-trip holds: base64ToArrayBuffer(arrayBufferToBase64(b)) returns exactly
b; for the empty byte array, arrayBufferToBase64 does not return an encoding
but fails with the empty-buffer error. -/
theorem c10_base64_roundtrip_and_empty_failure :
    (∀ l : List Nat, l ≠ [] → (∀ b ∈ l, b < 256) →
      (CryptoService.arrayBufferToBase64 l >>= CryptoService.base64ToArrayBuffer)
        = Except.ok l)
    ∧ CryptoService.arrayBufferToBase64 [] = Except.error JsError.emptyBufferError := by
  constructor
  · intro l hne hb
    rw [CryptoService.arrayBufferToBase64_ok l hne hb, except_bind_ok,
      CryptoService.base64ToArrayBuffer_encB64Str l hne hb]
  · rfl

/-- Witness for C10 at a concrete byte array. -/
theorem c10_witness :
    (CryptoService.arrayBufferToBase64 [0, 255, 7, 64]
      >>= CryptoService.base64ToArrayBuffer) = Except.ok [0, 255, 7, 64] :=
  c10_base64_roundtrip_and_empty_failure.1 [0, 255, 7, 64] (by decide) (by decide)

/-- Malformation predicate of the combined ciphertext:nonce envelope string,
following the claim: the separator is absent (fewer than two parts), either
half is absent (empty), or either half is not valid base64 (atob fails). -/
def malformedEnvelope (s : String) : Bool :=
  match CryptoService.splitOnColon s.data with
  | p0 :: p1 :: _ =>
    p0.isEmpty || p1.isEmpty || (atobModel p0).isNone || (atobModel p1).isNone
  | _ => true

/-- Errors of the EncodingFailure class of the specification: malformed
base64 or malformed combined envelope string. -/
def isEncodingFailure : JsError → Bool
  | JsError.invalidKeyFormat => true
  | JsError.invalidCharacterError => true
  | JsError.invalidBase64Input => true
  | _ => false

theorem base64ToArrayBuffer_mk_none (p : List Char) (hne : p ≠ [])
    (h : atobModel p = none) :
    CryptoService.base64ToArrayBuffer (String.mk p)
      = Except.error JsError.invalidCharacterError := by
  unfold CryptoService.base64ToArrayBuffer
  have hd : (String.mk p).data = p := rfl
  rw [hd, if_neg (by simpa [List.isEmpty_iff] using hne), h]

theorem base64ToArrayBuffer_mk_some (p : List Char) (hne : p ≠ []) (v : List Nat)
    (h : atobModel p = some v) :
    CryptoService.base64ToArrayBuffer (String.mk p) = Except.ok v := by
  unfold CryptoService.base64ToArrayBuffer
  have hd : (String.mk p).data = p := rfl
  rw [hd, if_neg (by simpa [List.isEmpty_iff] using hne), h]

/-- C7: For every input string given to decryptGroupKey whose combined
ciphertext:nonce envelope is malformed (the separator absent, either half
absent, or either half not valid base64) and every valid ephemeral-key
argument, the operation fails with an error of the EncodingFailure class and
returns no group key. -/
theorem c7_malformed_envelope_fails_with_encodingFailure (s : String) (e m : Nat)
    (hm : malformedEnvelope s = true) :
    ∃ err, CryptoService.decryptGroupKey s
        (encB64Str (exportPublicKeyRaw (pubOfPriv e))) m = Except.error err
      ∧ isEncodingFailure err = true := by
  unfold malformedEnvelope at hm
  cases hsp : CryptoService.splitOnColon s.data with
  | nil =>
    refine ⟨JsError.invalidKeyFormat, ?_, rfl⟩
    unfold CryptoService.decryptGroupKey
    rw [hsp]
  | cons p0 ps =>
    cases ps with
    | nil =>
      refine ⟨JsError.invalidKeyFormat, ?_, rfl⟩
      unfold CryptoService.decryptGroupKey
      rw [hsp]
    | cons p1 rest =>
      rw [hsp] at hm
      have hm2 : (p0.isEmpty || p1.isEmpty || (atobModel p0).isNone
          || (atobModel p1).isNone) = true := hm
      have hred : CryptoService.decryptGroupKey s
          (encB64Str (exportPublicKeyRaw (pubOfPriv e))) m
          = CryptoService.decryptGroupKeyParts p0 p1
            (encB64Str (exportPublicKeyRaw (pubOfPriv e))) m := by
        unfold CryptoService.decryptGroupKey
        rw [hsp]
      by_cases h0 : p0.isEmpty
      · refine ⟨JsError.invalidKeyFormat, ?_, rfl⟩
        rw [hred]
        simp only [CryptoService.decryptGroupKeyParts]
        rw [if_pos (Or.inl h0)]
      · by_cases h1 : p1.isEmpty
        · refine ⟨JsError.invalidKeyFormat, ?_, rfl⟩
          rw [hred]
          simp only [CryptoService.decryptGroupKeyParts]
          rw [if_pos (Or.inr h1)]
        · have hp0ne : p0 ≠ [] := by
            intro h
            rw [h] at h0
            exact h0 rfl
          have hp1ne : p1 ≠ [] := by
            intro h
            rw [h] at h1
            exact h1 rfl
          have hcond : ¬((p0.isEmpty : Prop) ∨ (p1.isEmpty : Prop)) := by
            rintro (h | h)
            · exact h0 h
            · exact h1 h
          cases ha0 : atobModel p0 with
          | none =>
            refine ⟨JsError.invalidCharacterError, ?_, rfl⟩
            rw [hred]
            simp only [CryptoService.decryptGroupKeyParts]
            rw [if_neg hcond,
              CryptoService.base64ToArrayBuffer_encB64Str _ (CryptoService.exportPublicKeyRaw_ne_nil _)
                (CryptoService.exportPublicKeyRaw_lt _), except_bind_ok,
              CryptoService.importPublicKey_export _ (CryptoService.pubOfPriv_lt e), except_bind_ok,
              base64ToArrayBuffer_mk_none p0 hp0ne ha0, except_bind_error]
          | some v0 =>
            cases ha1 : atobModel p1 with
            | none =>
              refine ⟨JsError.invalidCharacterError, ?_, rfl⟩
              rw [hred]
              simp only [CryptoService.decryptGroupKeyParts]
              rw [if_neg hcond,
                CryptoService.base64ToArrayBuffer_encB64Str _ (CryptoService.exportPublicKeyRaw_ne_nil _)
                  (CryptoService.exportPublicKeyRaw_lt _), except_bind_ok,
                CryptoService.importPublicKey_export _ (CryptoService.pubOfPriv_lt e), except_bind_ok,
                base64ToArrayBuffer_mk_some p0 hp0ne v0 ha0, except_bind_ok,
                base64ToArrayBuffer_mk_none p1 hp1ne ha1, except_bind_error]
            | some v1 =>
              exfalso
              rw [ha0, ha1] at hm2
              simp [h0, h1] at hm2

/-- Witness for C7: an envelope without any separator, with a valid
ephemeral-key argument. -/
theorem c7_witness :
    ∃ err, CryptoService.decryptGroupKey "abc"
        (encB64Str (exportPublicKeyRaw (pubOfPriv 2))) 5 = Except.error err
      ∧ isEncodingFailure err = true :=
  c7_malformed_envelope_fails_with_encodingFailure "abc" 2 5 (by decide)

/-- Concrete group key used by the C8 theorems. -/
def c8GroupKey : List Nat := List.range 32

/-- Concrete wrap nonce used by the C8 theorems. -/
def c8Nonce : List Nat := List.range 12

/-- Concrete wrap key used by the C8 theorems: the key derived from the
ephemeral scalar 2 against the member public key of the scalar 3. -/
def c8WrapKey : List Nat :=
  CryptoService.deriveAESKey (CryptoService.computeSharedSecret 2 (pubOfPriv 3))

/-- C8 counterexample: at a concrete group key, member key and entropy, the
ciphertext half of the produced envelope is the encryption of the base64
text encoding of the group key, which differs from the group key's exported
byte form itself; in particular the ciphertext is not an encryption of the
exported byte form.  This refutes the claim that wrapForMember "encrypts the
group key's exported byte form". -/
theorem c8_counterexample :
    (CryptoService.encryptGroupKeyForMember c8GroupKey
        (exportPublicKeyRaw (pubOfPriv 3)) 2 c8Nonce).map
        (fun env => env.encryptedGroupKey)
      = Except.ok (encB64Str (aesGcmEncrypt c8WrapKey c8Nonce
          (utf8Encode (encB64Str c8GroupKey))) ++ ":" ++ encB64Str c8Nonce)
    ∧ utf8Encode (encB64Str c8GroupKey) ≠ c8GroupKey
    ∧ aesGcmEncrypt c8WrapKey c8Nonce (utf8Encode (encB64Str c8GroupKey))
        ≠ aesGcmEncrypt c8WrapKey c8Nonce c8GroupKey := by
  refine ⟨?_, by decide, by decide⟩
  rw [CryptoService.encryptGroupKeyForMember_ok c8GroupKey 3 2 c8Nonce
    (by decide) (by decide) (by decide) (by decide)]
  rfl

/-- C8 (amended): wrapForMember encrypts the base64 text encoding of the
group key's exported byte form under the symmetric key derived against the
member's public key, and its wire output is the single string
"base64-ciphertext : base64-nonce" with exactly one separator character,
with the wrapping ephemeral public key returned as a separate base64
field. -/
theorem c8_wrap_wire_format (G : List Nat) (m e : Nat) (nonce : List Nat)
    (hgl : G.length = 32) (hg : ∀ b ∈ G, b < 256)
    (hnl : nonce.length = 12) (hn : ∀ b ∈ nonce, b < 256) :
    CryptoService.encryptGroupKeyForMember G (exportPublicKeyRaw (pubOfPriv m)) e nonce
      = Except.ok ⟨encB64Str (aesGcmEncrypt (CryptoService.deriveAESKey
          (CryptoService.computeSharedSecret e (pubOfPriv m))) nonce
          (utf8Encode (encB64Str G))) ++ ":" ++ encB64Str nonce,
        encB64Str (exportPublicKeyRaw (pubOfPriv e))⟩
    ∧ ((encB64Str (aesGcmEncrypt (CryptoService.deriveAESKey
          (CryptoService.computeSharedSecret e (pubOfPriv m))) nonce
          (utf8Encode (encB64Str G))) ++ ":" ++ encB64Str nonce).data.count ':') = 1 := by
  have hgne : G ≠ [] := by
    intro h
    rw [h] at hgl
    simp at hgl
  have hnne : nonce ≠ [] := by
    intro h
    rw [h] at hnl
    simp at hnl
  refine ⟨CryptoService.encryptGroupKeyForMember_ok G m e nonce hgne hg hnne hn, ?_⟩
  have hwk : ∀ b ∈ CryptoService.deriveAESKey
      (CryptoService.computeSharedSecret e (pubOfPriv m)), b < 256 :=
    CryptoService.deriveAESKey_lt _ (CryptoService.computeSharedSecret_lt _ _)
  have hct : ∀ b ∈ aesGcmEncrypt (CryptoService.deriveAESKey
      (CryptoService.computeSharedSecret e (pubOfPriv m))) nonce
      (utf8Encode (encB64Str G)), b < 256 :=
    aesGcmEncrypt_lt _ _ _ hwk hn (utf8Encode_lt _)
  rw [stringDataAppend, stringDataAppend]
  have hd1 : (encB64Str (aesGcmEncrypt (CryptoService.deriveAESKey
      (CryptoService.computeSharedSecret e (pubOfPriv m))) nonce
      (utf8Encode (encB64Str G)))).data = encB64 (aesGcmEncrypt (CryptoService.deriveAESKey
      (CryptoService.computeSharedSecret e (pubOfPriv m))) nonce
      (utf8Encode (encB64Str G))) := rfl
  have hd2 : (encB64Str nonce).data = encB64 nonce := rfl
  have hd3 : (":" : String).data = [':'] := rfl
  rw [hd1, hd2, hd3, List.count_append, List.count_append]
  have hz1 : (encB64 (aesGcmEncrypt (CryptoService.deriveAESKey
      (CryptoService.computeSharedSecret e (pubOfPriv m))) nonce
      (utf8Encode (encB64Str G)))).count ':' = 0 :=
    List.count_eq_zero.mpr (fun hmem => (encB64_no_colon _ hct ':' hmem) rfl)
  have hz2 : (encB64 nonce).count ':' = 0 :=
    List.count_eq_zero.mpr (fun hmem => (encB64_no_colon _ hn ':' hmem) rfl)
  rw [hz1, hz2]
  rfl

/-- Witness for the amended C8 at a concrete group key, member pair,
ephemeral scalar and nonce. -/
theorem c8_witness :
    CryptoService.encryptGroupKeyForMember c8GroupKey
        (exportPublicKeyRaw (pubOfPriv 3)) 2 c8Nonce
      = Except.ok ⟨encB64Str (aesGcmEncrypt c8WrapKey c8Nonce
          (utf8Encode (encB64Str c8GroupKey))) ++ ":" ++ encB64Str c8Nonce,
        encB64Str (exportPublicKeyRaw (pubOfPriv 2))⟩
    ∧ ((encB64Str (aesGcmEncrypt c8WrapKey c8Nonce
        (utf8Encode (encB64Str c8GroupKey))) ++ ":" ++ encB64Str c8Nonce).data.count ':') = 1 :=
  c8_wrap_wire_format c8GroupKey 3 2 c8Nonce (by decide) (by decide) (by decide) (by decide)

/-- C9: Every direct message is encrypted exactly twice: once under a key
derived from the first fresh sender-ephemeral scalar and the receiver
identity public key with the first fresh nonce, and once under a second key
derived from the second, independently drawn sender-ephemeral scalar and the
sender's own identity public key with the second fresh nonce.  The payload
equation exhibits each of the two ciphertext, nonce and ephemeral-key fields
as a function of its own entropy only (neither is derived from the other),
and the remaining conjuncts show that distinct ephemeral scalars and
distinct nonces produce distinct wire fields. -/
theorem c9_double_independent_encryption (msg : String) (rPriv myPriv e1 e2 : Nat)
    (n1 n2 : List Nat)
    (hn1l : n1.length = 12) (hn1 : ∀ b ∈ n1, b < 256)
    (hn2l : n2.length = 12) (hn2 : ∀ b ∈ n2, b < 256) :
    sendMessagePayload msg (exportPublicKeyRaw (pubOfPriv rPriv))
        (exportPublicKeyRaw (pubOfPriv myPriv)) e1 n1 e2 n2
      = Except.ok ⟨
          encB64Str (aesGcmEncrypt (CryptoService.deriveAESKey
            (CryptoService.computeSharedSecret e1 (pubOfPriv rPriv))) n1 (utf8Encode msg)),
          encB64Str n1,
          encB64Str (exportPublicKeyRaw (pubOfPriv e1)),
          encB64Str (aesGcmEncrypt (CryptoService.deriveAESKey
            (CryptoService.computeSharedSecret e2 (pubOfPriv myPriv))) n2 (utf8Encode msg)),
          encB64Str n2,
          encB64Str (exportPublicKeyRaw (pubOfPriv e2))⟩
    ∧ (pubOfPriv e1 ≠ pubOfPriv e2 →
        encB64Str (exportPublicKeyRaw (pubOfPriv e1))
          ≠ encB64Str (exportPublicKeyRaw (pubOfPriv e2)))
    ∧ (n1 ≠ n2 → encB64Str n1 ≠ encB64Str n2) := by
  have hn1ne : n1 ≠ [] := by
    intro h
    rw [h] at hn1l
    simp at hn1l
  have hn2ne : n2 ≠ [] := by
    intro h
    rw [h] at hn2l
    simp at hn2l
  have hk1 : ∀ b ∈ CryptoService.deriveAESKey
      (CryptoService.computeSharedSecret e1 (pubOfPriv rPriv)), b < 256 :=
    CryptoService.deriveAESKey_lt _ (CryptoService.computeSharedSecret_lt _ _)
  have hk2 : ∀ b ∈ CryptoService.deriveAESKey
      (CryptoService.computeSharedSecret e2 (pubOfPriv myPriv)), b < 256 :=
    CryptoService.deriveAESKey_lt _ (CryptoService.computeSharedSecret_lt _ _)
  refine ⟨?_, ?_, ?_⟩
  · have hi1 := CryptoService.importPublicKey_export _ (CryptoService.pubOfPriv_lt rPriv)
    have hi2 := CryptoService.importPublicKey_export _ (CryptoService.pubOfPriv_lt myPriv)
    have he1 := CryptoService.encryptMessage_ok msg _ n1 hk1 hn1 hn1ne
    have he2 := CryptoService.encryptMessage_ok msg _ n2 hk2 hn2 hn2ne
    have hb1 := CryptoService.arrayBufferToBase64_ok _
      (CryptoService.exportPublicKeyRaw_ne_nil (pubOfPriv e1))
      (CryptoService.exportPublicKeyRaw_lt _)
    have hb2 := CryptoService.arrayBufferToBase64_ok _
      (CryptoService.exportPublicKeyRaw_ne_nil (pubOfPriv e2))
      (CryptoService.exportPublicKeyRaw_lt _)
    simp only [sendMessagePayload, CryptoService.generateKeyPair, hi1, hi2, except_bind_ok,
      he1, he2, hb1, hb2]
    rfl
  · intro hne12 heq
    apply hne12
    have hraw := CryptoService.encB64Str_injOn _ _
      (CryptoService.exportPublicKeyRaw_lt _) (CryptoService.exportPublicKeyRaw_lt _) heq
    have hlt : pOrder < 256 ^ 64 := by norm_num [pOrder]
    exact CryptoService.exportPublicKeyRaw_inj _ _
      (Nat.lt_trans (CryptoService.pubOfPriv_lt e1) hlt)
      (Nat.lt_trans (CryptoService.pubOfPriv_lt e2) hlt) hraw
  · intro hne heq
    exact hne (CryptoService.encB64Str_injOn _ _ hn1 hn2 heq)

/-- Witness for C9 at a concrete message, identity scalars, ephemeral
scalars and nonces, including the distinctness conclusions at distinct
entropy. -/
theorem c9_witness :
    sendMessagePayload "hi" (exportPublicKeyRaw (pubOfPriv 3))
        (exportPublicKeyRaw (pubOfPriv 5)) 2 (List.range 12) 7
        ((List.range 12).map (fun x => x + 100))
      = Except.ok ⟨
          encB64Str (aesGcmEncrypt (CryptoService.deriveAESKey
            (CryptoService.computeSharedSecret 2 (pubOfPriv 3))) (List.range 12)
            (utf8Encode "hi")),
          encB64Str (List.range 12),
          encB64Str (exportPublicKeyRaw (pubOfPriv 2)),
          encB64Str (aesGcmEncrypt (CryptoService.deriveAESKey
            (CryptoService.computeSharedSecret 7 (pubOfPriv 5)))
            ((List.range 12).map (fun x => x + 100)) (utf8Encode "hi")),
          encB64Str ((List.range 12).map (fun x => x + 100)),
          encB64Str (exportPublicKeyRaw (pubOfPriv 7))⟩
    ∧ encB64Str (exportPublicKeyRaw (pubOfPriv 2))
        ≠ encB64Str (exportPublicKeyRaw (pubOfPriv 7))
    ∧ encB64Str (List.range 12) ≠ encB64Str ((List.range 12).map (fun x => x + 100)) := by
  have h := c9_double_independent_encryption "hi" 3 5 2 7 (List.range 12)
    ((List.range 12).map (fun x => x + 100)) (by decide) (by decide) (by decide) (by decide)
  exact ⟨h.1, h.2.1 (by decide), h.2.2 (by decide)⟩

end WebSec
